import Mathlib

/-!
Verification of the n8n-observability-sdk telemetry core.

This file gives a shallow embedding, in Lean 4, of the telemetry pipeline of
the repository: the transport configuration and buffering layer
(packages/telemetry-core/src/transport/base.ts), the fan-out transport
(transport/multi.ts), the file transport's append/read cycle
(transport/file.ts), the redaction filter (transport/base.ts,
redactSensitiveData), the workflow evaluator (evaluator/evaluator.ts), the
execution tracker (n8n-extension-telemetry/src/tracker.ts) and the telemetry
hook (n8n-extension-telemetry/src/hook.ts).

Conventions of the embedding:
  * JavaScript numbers are embedded as Lean Int (durations, scores, counts);
    division with Math.floor becomes Int.fdiv.
  * JavaScript optional / possibly-undefined fields become Option.
  * Promise-returning methods that can reject are embedded as functions
    returning a pair of the new state and an Option String error (none means
    the promise resolved); async interleaving is not modelled, matching the
    single-threaded cooperative scheduling of the source.
  * Mutable objects (Maps, arrays, buffers) become explicit state values
    threaded through the operations.
  * Date.now() becomes an explicit clock argument.
  * Fields that no modelled code path reads (event_id, which is a fresh
    UUID, and the free-form metadata maps on events) are elided from the
    event record; the open payload/metadata trees that the redaction filter
    walks are modelled separately as JSON values.
-/

/-! # Part I: Definitions -/

/-! ## Transport configuration (transport/base.ts)

TransportConfig is the user-facing configuration record: every field is
optional.  The BaseTransport constructor resolves it against the defaults
with an object spread; HttpTransport overrides the buffering defaults
before delegating to the base constructor, FileTransport delegates
unchanged. -/

/-- DEFAULT_REDACT_FIELDS from transport/base.ts. -/
def DEFAULT_REDACT_FIELDS : List String :=
  ["password", "secret", "token", "api_key", "apiKey", "authorization",
   "auth", "credentials", "private_key", "privateKey"]

/-- The user-facing TransportConfig record: all fields optional. -/
structure TransportConfig where
  buffered : Option Bool := none
  bufferSize : Option Nat := none
  flushIntervalMs : Option Nat := none
  redactPayloads : Option Bool := none
  redactFields : Option (List String) := none
deriving Repr, DecidableEq

/-- A TransportConfig after the constructor has applied the defaults. -/
structure ResolvedTransportConfig where
  buffered : Bool
  bufferSize : Nat
  flushIntervalMs : Nat
  redactPayloads : Bool
  redactFields : List String
deriving Repr, DecidableEq

/-- BaseTransport's constructor: spread of the defaults under the caller's
config (buffered false, bufferSize 100, flushIntervalMs 5000,
redactPayloads true, redactFields DEFAULT_REDACT_FIELDS). -/
def resolveBaseConfig (c : TransportConfig) : ResolvedTransportConfig :=
  { buffered := c.buffered.getD false
    bufferSize := c.bufferSize.getD 100
    flushIntervalMs := c.flushIntervalMs.getD 5000
    redactPayloads := c.redactPayloads.getD true
    redactFields := c.redactFields.getD DEFAULT_REDACT_FIELDS }

/-- HttpTransport's constructor first forces buffered to default true and
bufferSize to default 50, then calls the BaseTransport constructor. -/
def httpResolveConfig (c : TransportConfig) : ResolvedTransportConfig :=
  resolveBaseConfig
    { c with buffered := some (c.buffered.getD true)
             bufferSize := some (c.bufferSize.getD 50) }

/-- FileTransport's constructor passes its config through to the
BaseTransport constructor unchanged. -/
def fileResolveConfig (c : TransportConfig) : ResolvedTransportConfig :=
  resolveBaseConfig c

/-! ## BaseTransport buffering, flush and close (transport/base.ts)

The buffering layer is generic in the event payload, so it is modelled over
an arbitrary type of events.  The abstract doSend/doSendBatch methods of the
concrete subclass are modelled by a success oracle: events handed to a
doSendBatch call that succeeds are appended to the delivered log, a failing
call delivers nothing and the state-and-error pair carries the rejection. -/

/-- The mutable state of a BaseTransport instance: the internal buffer, the
periodic flush timer (present or already cleared), the log of events the
underlying destination accepted, and whether doClose has run. -/
structure BTState (α : Type) where
  buffer : List α
  timerActive : Bool
  delivered : List α
  closed : Bool
deriving Repr, DecidableEq

/-- BaseTransport.flush: returns immediately on an empty buffer; otherwise
copies the buffer, clears it, and only then awaits doSendBatch on the copy.
The oracle o decides whether that doSendBatch call resolves. -/
def flushBT {α : Type} (o : List α → Bool) (s : BTState α) :
    BTState α × Option String :=
  if s.buffer.isEmpty then (s, none)
  else
    let toFlush := s.buffer
    let s1 := { s with buffer := [] }
    if o toFlush then ({ s1 with delivered := s1.delivered ++ toFlush }, none)
    else (s1, some "doSendBatch rejected")

/-- BaseTransport.close: clears the flush timer, then awaits flush, then
awaits doClose.  A rejection from flush propagates and doClose is not
reached, but the timer has already been cleared. -/
def closeBT {α : Type} (o : List α → Bool) (s : BTState α) :
    BTState α × Option String :=
  let s1 := { s with timerActive := false }
  match flushBT o s1 with
  | (s2, none) => ({ s2 with closed := true }, none)
  | (s2, some e) => (s2, some e)

/-- BaseTransport.send in buffered mode pushes onto the buffer and flushes
once the buffer reaches the size threshold (this.config.bufferSize || 100:
a configured size of 0 is falsy and falls back to 100); in unbuffered mode
it awaits doSend directly, decided by the single-event oracle o1. -/
def sendBT {α : Type} (cfg : ResolvedTransportConfig)
    (o : List α → Bool) (o1 : α → Bool) (e : α) (s : BTState α) :
    BTState α × Option String :=
  if cfg.buffered then
    let s1 := { s with buffer := s.buffer ++ [e] }
    let threshold := if cfg.bufferSize = 0 then 100 else cfg.bufferSize
    if threshold ≤ s1.buffer.length then flushBT o s1 else (s1, none)
  else
    if o1 e then ({ s with delivered := s.delivered ++ [e] }, none)
    else (s, some "doSend rejected")

/-! ## MultiTransport fan-out (transport/multi.ts)

MultiTransport.send maps each member transport to
t.send(event).catch(err => console.error(...)) and awaits Promise.all of
the results.  A member is modelled as a test double: a received-events log
plus a predicate saying on which events its own send rejects. -/

/-- A member transport of a MultiTransport, as a test double. -/
structure MemberTransport (α : Type) where
  name : String
  received : List α
  failsOn : α → Bool

/-- One member's send: rejects (state unchanged) when failsOn fires,
otherwise appends the event to its received log and resolves. -/
def memberSend {α : Type} (t : MemberTransport α) (e : α) :
    MemberTransport α × Option String :=
  if t.failsOn e then (t, some (t.name ++ " failed"))
  else ({ t with received := t.received ++ [e] }, none)

/-- The .catch handler attached by MultiTransport: the rejection is logged
and swallowed, turning the settled promise into a resolved one. -/
def catchLogged {α : Type} (r : MemberTransport α × Option String) :
    MemberTransport α × Option String :=
  (r.1, none)

/-- Promise.all over the member results: resolves with all member states if
every promise resolved, otherwise rejects with the first rejection. -/
def promiseAll {α : Type} (rs : List (MemberTransport α × Option String)) :
    List (MemberTransport α) × Option String :=
  (rs.map Prod.fst,
   rs.foldr (fun r acc => match r.2 with | some e => some e | none => acc) none)

/-- MultiTransport.send: each member's send wrapped in the logging catch,
then Promise.all. -/
def multiSend {α : Type} (ts : List (MemberTransport α)) (e : α) :
    List (MemberTransport α) × Option String :=
  promiseAll (ts.map (fun t => catchLogged (memberSend t e)))

/-! ## Telemetry event model (events/types.ts)

The TelemetryEvent union is embedded as a record of the correlation fields
shared by every variant plus a tagged kind carrying the variant-specific
fields (node_context, duration_ms and the payload shape that types.ts makes
mandatory per event_type).  The event_id (a fresh UUID) and the free-form
metadata map are elided: no modelled consumer reads them. -/

/-- NodeContext from events/types.ts. -/
structure NodeContext where
  node_id : Option String := none
  node_name : String
  node_type : String
  node_index : Option Int := none
deriving Repr, DecidableEq

/-- The llm_metrics sub-object of EvalMetrics. -/
structure LlmMetrics where
  total_requests : Nat
  total_tokens : Option Int
  total_latency_ms : Option Int
deriving Repr, DecidableEq

/-- EvalMetrics from events/types.ts; slowest_node is a name/duration pair. -/
structure EvalMetrics where
  total_duration_ms : Int
  node_count : Nat
  failed_node_count : Nat
  slowest_node : Option (String × Int)
  avg_node_duration_ms : Int
  llm_metrics : Option LlmMetrics
deriving Repr, DecidableEq

/-- The tagged variant part of a TelemetryEvent.  Node-scoped durations are
kept optional because the evaluator re-checks duration_ms !== undefined on
every node-end event before using it. -/
inductive MEventKind where
  | workflowStarted (mode : Option String) (retryOf : Option String)
      (isManual : Option Bool)
  | workflowCompleted (durationMs : Int) (nodeCount : Int)
      (mode : Option String)
  | workflowFailed (durationMs : Int) (errorMessage : String)
      (errorNode : Option String) (errorType : Option String)
      (stackTrace : Option String)
  | nodeStarted (nodeContext : NodeContext) (inputItemsCount : Option Int)
  | nodeCompleted (nodeContext : NodeContext) (durationMs : Option Int)
      (outputItemsCount : Option Int)
  | nodeFailed (nodeContext : NodeContext) (durationMs : Option Int)
      (errorMessage : String) (errorType : Option String)
  | evalCompleted (score : Int) (labels : List String)
      (reasons : List String) (metrics : EvalMetrics)
  | llmRequested (nodeContext : NodeContext)
  | llmResponded (nodeContext : NodeContext) (durationMs : Option Int)
      (totalTokens : Option Int)
  | custom (name : String)
deriving Repr, DecidableEq

/-- A TelemetryEvent: shared correlation fields plus the tagged kind. -/
structure MEvent where
  run_id : String := ""
  workflow_id : String := ""
  workflow_name : Option String := none
  execution_id : String := ""
  session_id : Option String := none
  timestamp : Int := 0
  kind : MEventKind
deriving Repr, DecidableEq

/-- The event_type discriminator string of each variant (EventTypes in
events/types.ts). -/
def MEventKind.eventType : MEventKind → String
  | .workflowStarted .. => "workflow.started"
  | .workflowCompleted .. => "workflow.completed"
  | .workflowFailed .. => "workflow.failed"
  | .nodeStarted .. => "node.started"
  | .nodeCompleted .. => "node.completed"
  | .nodeFailed .. => "node.failed"
  | .evalCompleted .. => "eval.completed"
  | .llmRequested .. => "llm.requested"
  | .llmResponded .. => "llm.responded"
  | .custom _ => "custom"

/-- e.duration_ms as read through the base event type. -/
def MEvent.duration : MEvent → Option Int
  | { kind := .workflowCompleted d _ _, .. } => some d
  | { kind := .workflowFailed d _ _ _ _, .. } => some d
  | { kind := .nodeCompleted _ d _, .. } => d
  | { kind := .nodeFailed _ d _ _, .. } => d
  | { kind := .llmResponded _ d _, .. } => d
  | _ => none

/-- e.node_context.node_name for the node-scoped variants (the evaluator
only reads it on node.completed/node.failed events, where types.ts makes
node_context mandatory). -/
def MEvent.nodeName (e : MEvent) : String :=
  match e.kind with
  | .nodeStarted ctx _ => ctx.node_name
  | .nodeCompleted ctx _ _ => ctx.node_name
  | .nodeFailed ctx _ _ _ => ctx.node_name
  | .llmRequested ctx => ctx.node_name
  | .llmResponded ctx _ _ => ctx.node_name
  | _ => ""

/-- payload.error_message of a workflow.failed or node.failed event. -/
def MEvent.errorMessage (e : MEvent) : String :=
  match e.kind with
  | .workflowFailed _ m _ _ _ => m
  | .nodeFailed _ _ m _ => m
  | _ => ""

/-- payload.error_node of a workflow.failed event. -/
def MEvent.errorNode (e : MEvent) : Option String :=
  match e.kind with
  | .workflowFailed _ _ n _ _ => n
  | _ => none

/-- payload.total_tokens of an llm.responded event. -/
def MEvent.llmTotalTokens (e : MEvent) : Option Int :=
  match e.kind with
  | .llmResponded _ _ t => t
  | _ => none

/-! ## Workflow evaluator (evaluator/evaluator.ts)

WorkflowEvaluator.evaluate is a single pure function; its local pipeline
(event filters, metric accumulators, the five scoring rules, the final
clamp) is embedded as one named definition per intermediate value, each
traceable to the corresponding lines of the source. -/

/-- EvaluatorConfig with the DEFAULT_CONFIG values as defaults. -/
structure EvaluatorConfig where
  maxWorkflowDurationMs : Int := 60000
  maxNodeDurationMs : Int := 10000
  failedNodePenalty : Int := 15
  workflowFailureMaxScore : Int := 30
  slowWorkflowPenaltyPerSecond : Int := 2
  slowNodePenalty : Int := 5
  successBonus : Int := 10
deriving Repr, DecidableEq

/-- The evaluator's default configuration. -/
def defaultEvaluatorConfig : EvaluatorConfig := {}

/-- EvaluationResult from evaluator/evaluator.ts. -/
structure EvaluationResult where
  score : Int
  labels : List String
  reasons : List String
  metrics : EvalMetrics
deriving Repr, DecidableEq

/-- events.filter(e => e.event_type === NODE_STARTED). -/
def nodeStartEvents (events : List MEvent) : List MEvent :=
  events.filter (fun e => e.kind.eventType == "node.started")

/-- events.filter(e => e.event_type === NODE_COMPLETED). -/
def nodeCompletedEvents (events : List MEvent) : List MEvent :=
  events.filter (fun e => e.kind.eventType == "node.completed")

/-- events.filter(e => e.event_type === NODE_FAILED). -/
def nodeFailedEvents (events : List MEvent) : List MEvent :=
  events.filter (fun e => e.kind.eventType == "node.failed")

/-- events.find(e => e.event_type === WORKFLOW_COMPLETED). -/
def workflowCompletedEvent? (events : List MEvent) : Option MEvent :=
  events.find? (fun e => e.kind.eventType == "workflow.completed")

/-- events.find(e => e.event_type === WORKFLOW_FAILED). -/
def workflowFailedEvent? (events : List MEvent) : Option MEvent :=
  events.find? (fun e => e.kind.eventType == "workflow.failed")

/-- allNodeEndEvents = [...nodeCompletedEvents, ...nodeFailedEvents]. -/
def allNodeEndEvents (events : List MEvent) : List MEvent :=
  nodeCompletedEvents events ++ nodeFailedEvents events

/-- totalDurationMs: the terminal workflow event's duration_ms, preferring
workflow.completed, else workflow.failed, else 0.  Both terminal variants
carry a mandatory duration, so the .getD 0 fallbacks are never taken. -/
def totalDurationMs (events : List MEvent) : Int :=
  match workflowCompletedEvent? events with
  | some e => e.duration.getD 0
  | none =>
    match workflowFailedEvent? events with
    | some e => e.duration.getD 0
    | none => 0

/-- The slowest-node fold: strict greater-than comparison over the node-end
events that carry a duration, so ties keep the first one found. -/
def slowestNode (events : List MEvent) : Option (String × Int) :=
  (allNodeEndEvents events).foldl
    (fun acc e =>
      match e.duration with
      | none => acc
      | some d =>
        match acc with
        | none => some (e.nodeName, d)
        | some (_, dm) => if d > dm then some (e.nodeName, d) else acc)
    none

/-- The durations present on node-end events. -/
def nodeDurations (events : List MEvent) : List Int :=
  (allNodeEndEvents events).filterMap MEvent.duration

/-- Math.round(x) for x = sum / len given as exact integers (len > 0):
round half toward positive infinity, i.e. floor(x + 1/2). -/
def jsRoundDiv (sum : Int) (len : Nat) : Int :=
  Int.fdiv (2 * sum + len) (2 * len)

/-- Math.round(avgNodeDurationMs): the average of the node durations,
0 when there are none. -/
def avgNodeDurationMs (events : List MEvent) : Int :=
  let ds := nodeDurations events
  if ds.length = 0 then 0 else jsRoundDiv (ds.foldl (· + ·) 0) ds.length

/-- The node-end events whose duration exceeds maxNodeDurationMs. -/
def slowNodes (cfg : EvaluatorConfig) (events : List MEvent) : List MEvent :=
  (allNodeEndEvents events).filter
    (fun e =>
      match e.duration with
      | some d => decide (d > cfg.maxNodeDurationMs)
      | none => false)

/-- The running score after the five rules, before the final clamp.
Rule 1 caps a failed workflow at workflowFailureMaxScore, rule 2 subtracts
failedNodePenalty per failed node, rule 3 subtracts
Math.floor(overageSeconds * slowWorkflowPenaltyPerSecond), rule 4 subtracts
slowNodePenalty per slow node, rule 5 adds successBonus on a clean
completed run. -/
def rawScore (cfg : EvaluatorConfig) (events : List MEvent) : Int :=
  let failedNodeCount : Int := (nodeFailedEvents events).length
  let s1 : Int :=
    if (workflowFailedEvent? events).isSome then
      min 100 cfg.workflowFailureMaxScore
    else 100
  let s2 : Int :=
    if failedNodeCount > 0 then s1 - failedNodeCount * cfg.failedNodePenalty
    else s1
  let s3 : Int :=
    if totalDurationMs events > cfg.maxWorkflowDurationMs then
      s2 - Int.fdiv ((totalDurationMs events - cfg.maxWorkflowDurationMs)
                      * cfg.slowWorkflowPenaltyPerSecond) 1000
    else s2
  let s4 : Int :=
    if (slowNodes cfg events).length > 0 then
      s3 - (slowNodes cfg events).length * cfg.slowNodePenalty
    else s3
  if (workflowCompletedEvent? events).isSome ∧ failedNodeCount = 0
      ∧ (slowNodes cfg events).length = 0 then
    s4 + cfg.successBonus
  else s4

/-- score = Math.max(0, Math.min(100, score)). -/
def clampScore (s : Int) : Int := max 0 (min 100 s)

/-- The labels pushed by the five rules, in rule order. -/
def labelsOf (cfg : EvaluatorConfig) (events : List MEvent) : List String :=
  (if (workflowFailedEvent? events).isSome then ["workflow_failed"] else [])
  ++ (if (nodeFailedEvents events).length > 0 then ["node_failures"] else [])
  ++ (if totalDurationMs events > cfg.maxWorkflowDurationMs then
        ["slow_execution"] else [])
  ++ (if (slowNodes cfg events).length > 0 then ["slow_nodes"] else [])
  ++ (if (workflowCompletedEvent? events).isSome
        ∧ (nodeFailedEvents events).length = 0
        ∧ (slowNodes cfg events).length = 0 then
        ["clean_execution"] else [])

/-- Two decimal digits with a leading zero when needed. -/
def pad2 (k : Nat) : String := if k < 10 then "0" ++ toString k else toString k

/-- (n / 1000).toFixed(2) for an integral millisecond count n, in exact
decimal arithmetic: hundredths of a second rounded half away from zero. -/
def toFixed2Ms (n : Int) : String :=
  let sign := if n < 0 then "-" else ""
  let h := (n.natAbs + 5) / 10
  sign ++ toString (h / 100) ++ "." ++ pad2 (h % 100)

/-- The trimmed decimal expansion of r / 1000 for 0 < r < 1000, as printed
by JavaScript number-to-string conversion (trailing zeros dropped). -/
def frac3 (r : Nat) : String :=
  let d1 := r / 100
  let d2 := (r / 10) % 10
  let d3 := r % 10
  if d3 ≠ 0 then toString d1 ++ toString d2 ++ toString d3
  else if d2 ≠ 0 then toString d1 ++ toString d2
  else toString d1

/-- String interpolation of the JavaScript number n / 1000 (exact decimal,
as in the template literal for the slow-workflow threshold). -/
def jsDiv1000Str (n : Int) : String :=
  let a := n.natAbs
  let sign := if n < 0 ∧ a % 1000 ≠ 0 ∨ n < 0 ∧ a ≥ 1000 then "-" else ""
  if a % 1000 = 0 then sign ++ toString (a / 1000)
  else sign ++ toString (a / 1000) ++ "." ++ frac3 (a % 1000)

/-- Rule-1 reasons: the workflow failure message, and the failing node when
payload.error_node is truthy (present and non-empty). -/
def rule1Reasons (events : List MEvent) : List String :=
  match workflowFailedEvent? events with
  | none => []
  | some e =>
    ["Workflow failed: " ++ e.errorMessage]
    ++ (match e.errorNode with
        | some n => if n ≠ "" then ["Error occurred in node: " ++ n] else []
        | none => [])

/-- Rule-2 reasons: the failed-node summary plus one line per failed node. -/
def rule2Reasons (cfg : EvaluatorConfig) (events : List MEvent) :
    List String :=
  let fs := nodeFailedEvents events
  if fs.length > 0 then
    (toString fs.length ++ " node(s) failed (-"
      ++ toString ((fs.length : Int) * cfg.failedNodePenalty) ++ " points)")
    :: fs.map (fun e => "  - " ++ e.nodeName ++ ": " ++ e.errorMessage)
  else []

/-- Rule-3 reason: the slow-workflow line with both durations in seconds. -/
def rule3Reasons (cfg : EvaluatorConfig) (events : List MEvent) :
    List String :=
  if totalDurationMs events > cfg.maxWorkflowDurationMs then
    ["Workflow exceeded time threshold: " ++ toFixed2Ms (totalDurationMs events)
      ++ "s > " ++ jsDiv1000Str cfg.maxWorkflowDurationMs ++ "s (-"
      ++ toString (Int.fdiv ((totalDurationMs events
            - cfg.maxWorkflowDurationMs) * cfg.slowWorkflowPenaltyPerSecond)
            1000)
      ++ " points)"]
  else []

/-- Rule-4 reasons: the slow-node summary plus one line per slow node. -/
def rule4Reasons (cfg : EvaluatorConfig) (events : List MEvent) :
    List String :=
  let sn := slowNodes cfg events
  if sn.length > 0 then
    (toString sn.length ++ " node(s) exceeded time threshold (-"
      ++ toString ((sn.length : Int) * cfg.slowNodePenalty) ++ " points)")
    :: sn.map (fun e => "  - " ++ e.nodeName ++ ": "
                 ++ toFixed2Ms (e.duration.getD 0) ++ "s")
  else []

/-- Rule-5 reason: the clean-execution bonus line. -/
def rule5Reasons (cfg : EvaluatorConfig) (events : List MEvent) :
    List String :=
  if (workflowCompletedEvent? events).isSome
      ∧ (nodeFailedEvents events).length = 0
      ∧ (slowNodes cfg events).length = 0 then
    ["Clean execution with no failures (+" ++ toString cfg.successBonus
      ++ " points)"]
  else []

/-- All reasons pushed by the five rules, in rule order. -/
def reasonsOf (cfg : EvaluatorConfig) (events : List MEvent) : List String :=
  rule1Reasons events ++ rule2Reasons cfg events ++ rule3Reasons cfg events
    ++ rule4Reasons cfg events ++ rule5Reasons cfg events

/-- The LLM request/response events. -/
def llmEventsOf (events : List MEvent) : List MEvent :=
  events.filter (fun e =>
    e.kind.eventType == "llm.requested" || e.kind.eventType == "llm.responded")

/-- The LLM response events. -/
def llmRespondedEvents (events : List MEvent) : List MEvent :=
  events.filter (fun e => e.kind.eventType == "llm.responded")

/-- totalTokens accumulation: a response's payload.total_tokens is added
only when truthy (present and non-zero). -/
def llmTokensSum (events : List MEvent) : Int :=
  (llmRespondedEvents events).foldl
    (fun acc e =>
      match e.llmTotalTokens with
      | some t => if t ≠ 0 then acc + t else acc
      | none => acc)
    0

/-- totalLatency accumulation: a response's duration_ms is added only when
truthy (present and non-zero). -/
def llmLatencySum (events : List MEvent) : Int :=
  (llmRespondedEvents events).foldl
    (fun acc e =>
      match e.duration with
      | some d => if d ≠ 0 then acc + d else acc
      | none => acc)
    0

/-- The metrics object: node_count counts node.started events; llm_metrics
is attached only when LLM events are present, with the token/latency totals
replaced by undefined when they are 0 (the || undefined coercion). -/
def metricsOf (events : List MEvent) : EvalMetrics :=
  { total_duration_ms := totalDurationMs events
    node_count := (nodeStartEvents events).length
    failed_node_count := (nodeFailedEvents events).length
    slowest_node := slowestNode events
    avg_node_duration_ms := avgNodeDurationMs events
    llm_metrics :=
      if (llmEventsOf events).length > 0 then
        some { total_requests := (llmEventsOf events).length / 2
               total_tokens :=
                 if llmTokensSum events ≠ 0 then some (llmTokensSum events)
                 else none
               total_latency_ms :=
                 if llmLatencySum events ≠ 0 then some (llmLatencySum events)
                 else none }
      else none }

/-- WorkflowEvaluator.evaluate: the clamped score, the labels and reasons in
rule order, and the metrics object. -/
def evaluate (cfg : EvaluatorConfig) (events : List MEvent) :
    EvaluationResult :=
  { score := clampScore (rawScore cfg events)
    labels := labelsOf cfg events
    reasons := reasonsOf cfg events
    metrics := metricsOf events }

/-! ## String-keyed maps

JavaScript Map objects keyed by strings are embedded as association lists:
set replaces in place (keeping entry order) or appends, get returns the
first match, erase removes the entry. -/

/-- An association-list embedding of a string-keyed JavaScript Map. -/
abbrev MMap (α : Type) := List (String × α)

/-- Map.get: the value at a key, if present. -/
def MMap.get {α : Type} : MMap α → String → Option α
  | [], _ => none
  | (k0, v) :: rest, k => if k0 = k then some v else MMap.get rest k

/-- Map.set: replace the entry in place, or append a new one. -/
def MMap.set {α : Type} : MMap α → String → α → MMap α
  | [], k, v => [(k, v)]
  | (k0, v0) :: rest, k, v =>
    if k0 = k then (k, v) :: rest else (k0, v0) :: MMap.set rest k v

/-- Map.delete: remove the entry at a key. -/
def MMap.erase {α : Type} : MMap α → String → MMap α
  | [], _ => []
  | (k0, v0) :: rest, k =>
    if k0 = k then rest else (k0, v0) :: MMap.erase rest k

/-! ## Execution tracker (n8n-extension-telemetry/src/tracker.ts)

The tracker's private executions map is the state; each method takes it and
the current clock and returns the updated map together with the method's
return value.  The metadata field of ExecutionState (a free-form map that
no modelled consumer reads) is elided. -/

/-- TimingEntry from tracker.ts. -/
structure TimingEntry where
  startTime : Int
  nodeContext : Option NodeContext := none
  inputItemsCount : Option Int := none
deriving Repr, DecidableEq

/-- ExecutionState from tracker.ts. -/
structure ExecutionState where
  executionId : String
  workflowId : String
  workflowName : String
  sessionId : Option String := none
  startTime : Int
  nodeTimings : MMap TimingEntry
  completedNodes : List String
  failedNodes : List String
deriving Repr, DecidableEq

namespace ExecutionTracker

/-- startExecution: registers fresh state under the id (last writer wins)
and returns it. -/
def startExecution (tr : MMap ExecutionState)
    (executionId workflowId workflowName : String)
    (sessionId : Option String) (now : Int) :
    MMap ExecutionState × ExecutionState :=
  let st : ExecutionState :=
    { executionId, workflowId, workflowName, sessionId, startTime := now
      nodeTimings := [], completedNodes := [], failedNodes := [] }
  (MMap.set tr executionId st, st)

/-- getExecution: lookup by id. -/
def getExecution (tr : MMap ExecutionState) (executionId : String) :
    Option ExecutionState :=
  MMap.get tr executionId

/-- startNode: records a timing entry keyed by node name; returns none and
changes nothing when the execution is unknown. -/
def startNode (tr : MMap ExecutionState) (executionId nodeName : String)
    (nodeContext : NodeContext) (inputItemsCount : Option Int) (now : Int) :
    MMap ExecutionState × Option TimingEntry :=
  match MMap.get tr executionId with
  | none => (tr, none)
  | some st =>
    let entry : TimingEntry :=
      { startTime := now, nodeContext := some nodeContext, inputItemsCount }
    (MMap.set tr executionId
      { st with nodeTimings := MMap.set st.nodeTimings nodeName entry },
     some entry)

/-- completeNode: elapsed time since the node's recorded start, appending
the node to completedNodes; 0 (and no change) when the execution or the
timing entry is missing. -/
def completeNode (tr : MMap ExecutionState) (executionId nodeName : String)
    (now : Int) : MMap ExecutionState × Int :=
  match MMap.get tr executionId with
  | none => (tr, 0)
  | some st =>
    match MMap.get st.nodeTimings nodeName with
    | none => (tr, 0)
    | some timing =>
      (MMap.set tr executionId
        { st with completedNodes := st.completedNodes ++ [nodeName] },
       now - timing.startTime)

/-- failNode: like completeNode, appending to failedNodes instead. -/
def failNode (tr : MMap ExecutionState) (executionId nodeName : String)
    (now : Int) : MMap ExecutionState × Int :=
  match MMap.get tr executionId with
  | none => (tr, 0)
  | some st =>
    match MMap.get st.nodeTimings nodeName with
    | none => (tr, 0)
    | some timing =>
      (MMap.set tr executionId
        { st with failedNodes := st.failedNodes ++ [nodeName] },
       now - timing.startTime)

/-- completeExecution: elapsed time since execution start and the number of
completed plus failed nodes; zeros when the execution is unknown.  The map
is not modified. -/
def completeExecution (tr : MMap ExecutionState) (executionId : String)
    (now : Int) : Int × Nat :=
  match MMap.get tr executionId with
  | none => (0, 0)
  | some st =>
    (now - st.startTime, st.completedNodes.length + st.failedNodes.length)

/-- cleanupExecution: removes the state. -/
def cleanupExecution (tr : MMap ExecutionState) (executionId : String) :
    MMap ExecutionState :=
  MMap.erase tr executionId

end ExecutionTracker

/-! ## Telemetry hook (n8n-extension-telemetry/src/hook.ts)

The hook owns the tracker map, the per-execution event buffers and a
transport; transport.send is modelled as appending to an outbound log.
Each callback takes the current clock. -/

/-- The hook configuration fields the modelled callbacks read. -/
structure HookConfig where
  enableEvaluation : Bool := true
  defaultSessionId : Option String := none
  evaluatorConfig : EvaluatorConfig := {}
deriving Repr, DecidableEq

/-- The hook's mutable state: the tracker's executions map, the
per-execution event buffers, and the log of events handed to
transport.send. -/
structure HookState where
  tracker : MMap ExecutionState
  executionEvents : MMap (List MEvent)
  transportLog : List MEvent
deriving Repr, DecidableEq

/-- The JavaScript a || b coercion on optional strings: an empty string is
falsy. -/
def jsOrStr (a b : Option String) : Option String :=
  match a with
  | some s => if s = "" then b else some s
  | none => b

/-- ExecutionContext from events/factory.ts (metadata elided). -/
structure ExecutionContext where
  execution_id : String
  workflow_id : String
  workflow_name : Option String := none
  run_id : Option String := none
  session_id : Option String := none
deriving Repr, DecidableEq

/-- TelemetryHook.getExecutionContext: builds the context from the tracker
state, falling back to the configured default session id. -/
def getExecutionContext (cfg : HookConfig) (s : HookState)
    (executionId : String) : Option ExecutionContext :=
  match MMap.get s.tracker executionId with
  | none => none
  | some st =>
    some { execution_id := st.executionId
           workflow_id := st.workflowId
           workflow_name := some st.workflowName
           run_id := some st.executionId
           session_id := jsOrStr st.sessionId cfg.defaultSessionId }

/-- createBaseEvent from events/factory.ts: the shared fields of every
event built from a context (run_id falls back to the execution id). -/
def createBaseEvent (context : ExecutionContext) (now : Int)
    (kind : MEventKind) : MEvent :=
  { run_id := (jsOrStr context.run_id (some context.execution_id)).getD
                context.execution_id
    workflow_id := context.workflow_id
    workflow_name := context.workflow_name
    execution_id := context.execution_id
    session_id := context.session_id
    timestamp := now
    kind }

/-- createWorkflowStartedEvent. -/
def createWorkflowStartedEvent (context : ExecutionContext) (now : Int)
    (mode retryOf : Option String) (isManual : Option Bool) : MEvent :=
  createBaseEvent context now (.workflowStarted mode retryOf isManual)

/-- createWorkflowCompletedEvent. -/
def createWorkflowCompletedEvent (context : ExecutionContext) (now : Int)
    (durationMs : Int) (nodeCount : Int) (mode : Option String) : MEvent :=
  createBaseEvent context now (.workflowCompleted durationMs nodeCount mode)

/-- createWorkflowFailedEvent. -/
def createWorkflowFailedEvent (context : ExecutionContext) (now : Int)
    (durationMs : Int) (errorMessage : String)
    (errorNode errorType stackTrace : Option String) : MEvent :=
  createBaseEvent context now
    (.workflowFailed durationMs errorMessage errorNode errorType stackTrace)

/-- createNodeStartedEvent. -/
def createNodeStartedEvent (context : ExecutionContext) (now : Int)
    (nodeContext : NodeContext) (inputItemsCount : Option Int) : MEvent :=
  createBaseEvent context now (.nodeStarted nodeContext inputItemsCount)

/-- createNodeCompletedEvent. -/
def createNodeCompletedEvent (context : ExecutionContext) (now : Int)
    (nodeContext : NodeContext) (durationMs : Int)
    (outputItemsCount : Option Int) : MEvent :=
  createBaseEvent context now
    (.nodeCompleted nodeContext (some durationMs) outputItemsCount)

/-- createNodeFailedEvent. -/
def createNodeFailedEvent (context : ExecutionContext) (now : Int)
    (nodeContext : NodeContext) (durationMs : Int) (errorMessage : String)
    (errorType : Option String) : MEvent :=
  createBaseEvent context now
    (.nodeFailed nodeContext (some durationMs) errorMessage errorType)

/-- createEvalCompletedEvent, from an evaluation result. -/
def createEvalCompletedEvent (context : ExecutionContext) (now : Int)
    (r : EvaluationResult) : MEvent :=
  createBaseEvent context now
    (.evalCompleted r.score r.labels r.reasons r.metrics)

/-- TelemetryHook.sendEvent: appends the event to the buffer keyed by its
execution id and hands it to transport.send. -/
def sendEvent (s : HookState) (e : MEvent) : HookState :=
  let buf := (MMap.get s.executionEvents e.execution_id).getD []
  { s with
    executionEvents := MMap.set s.executionEvents e.execution_id (buf ++ [e])
    transportLog := s.transportLog ++ [e] }

/-- TelemetryHook.onWorkflowStart: registers the execution with the
tracker, opens a fresh event buffer, and emits workflow.started.  The
context lookup cannot miss (the execution was just registered); the none
branch mirrors the source's non-null assertion. -/
def onWorkflowStart (cfg : HookConfig) (s : HookState)
    (executionId workflowId workflowName : String)
    (mode sessionId : Option String) (isManual : Option Bool)
    (retryOf : Option String) (now : Int) : HookState :=
  let tr := (ExecutionTracker.startExecution s.tracker executionId
    workflowId workflowName sessionId now).1
  let s1 := { s with tracker := tr
                     executionEvents := MMap.set s.executionEvents
                       executionId [] }
  match getExecutionContext cfg s1 executionId with
  | none => s1
  | some context =>
    sendEvent s1 (createWorkflowStartedEvent context now mode retryOf isManual)

/-- TelemetryHook.runEvaluation: evaluates the buffered events for the
execution and emits eval.completed; a no-op when the buffer is empty. -/
def runEvaluation (cfg : HookConfig) (s : HookState) (executionId : String)
    (context : ExecutionContext) (now : Int) : HookState :=
  let events := (MMap.get s.executionEvents executionId).getD []
  if events.isEmpty then s
  else
    sendEvent s
      (createEvalCompletedEvent context now (evaluate cfg.evaluatorConfig events))

/-- TelemetryHook.cleanup: releases the tracker state and the event buffer
for the execution. -/
def hookCleanup (s : HookState) (executionId : String) : HookState :=
  { s with tracker := ExecutionTracker.cleanupExecution s.tracker executionId
           executionEvents := MMap.erase s.executionEvents executionId }

/-- TelemetryHook.onWorkflowComplete: a no-op for an unknown execution;
otherwise emits workflow.completed, runs the evaluation when enabled, and
cleans up. -/
def onWorkflowComplete (cfg : HookConfig) (s : HookState)
    (executionId : String) (mode : Option String) (now : Int) : HookState :=
  match getExecutionContext cfg s executionId with
  | none => s
  | some context =>
    let r := ExecutionTracker.completeExecution s.tracker executionId now
    let s1 := sendEvent s
      (createWorkflowCompletedEvent context now r.1 r.2 mode)
    let s2 :=
      if cfg.enableEvaluation then runEvaluation cfg s1 executionId context now
      else s1
    hookCleanup s2 executionId

/-- TelemetryHook.onWorkflowFail: a no-op for an unknown execution;
otherwise emits workflow.failed, runs the evaluation when enabled, and
cleans up. -/
def onWorkflowFail (cfg : HookConfig) (s : HookState) (executionId : String)
    (errorMessage : String) (errorNode errorType stackTrace : Option String)
    (now : Int) : HookState :=
  match getExecutionContext cfg s executionId with
  | none => s
  | some context =>
    let duration := (ExecutionTracker.completeExecution s.tracker executionId
      now).1
    let s1 := sendEvent s
      (createWorkflowFailedEvent context now duration errorMessage errorNode
        errorType stackTrace)
    let s2 :=
      if cfg.enableEvaluation then runEvaluation cfg s1 executionId context now
      else s1
    hookCleanup s2 executionId

/-- TelemetryHook.onNodeStart: a no-op for an unknown execution; otherwise
records the node timing and emits node.started. -/
def onNodeStart (cfg : HookConfig) (s : HookState)
    (executionId nodeName nodeType : String) (nodeId : Option String)
    (inputItemsCount : Option Int) (now : Int) : HookState :=
  match getExecutionContext cfg s executionId with
  | none => s
  | some context =>
    let nodeContext : NodeContext :=
      { node_id := nodeId, node_name := nodeName, node_type := nodeType }
    let tr := (ExecutionTracker.startNode s.tracker executionId nodeName
      nodeContext inputItemsCount now).1
    let s1 := { s with tracker := tr }
    sendEvent s1 (createNodeStartedEvent context now nodeContext inputItemsCount)

/-- TelemetryHook.onNodeComplete: a no-op for an unknown execution;
otherwise completes the node timing and emits node.completed. -/
def onNodeComplete (cfg : HookConfig) (s : HookState)
    (executionId nodeName nodeType : String) (nodeId : Option String)
    (outputItemsCount : Option Int) (now : Int) : HookState :=
  match getExecutionContext cfg s executionId with
  | none => s
  | some context =>
    let nodeContext : NodeContext :=
      { node_id := nodeId, node_name := nodeName, node_type := nodeType }
    let r := ExecutionTracker.completeNode s.tracker executionId nodeName now
    let s1 := { s with tracker := r.1 }
    sendEvent s1
      (createNodeCompletedEvent context now nodeContext r.2
        outputItemsCount)

/-- TelemetryHook.onNodeFail: a no-op for an unknown execution; otherwise
fails the node timing and emits node.failed. -/
def onNodeFail (cfg : HookConfig) (s : HookState)
    (executionId nodeName nodeType : String) (nodeId : Option String)
    (errorMessage : String) (errorType : Option String) (now : Int) :
    HookState :=
  match getExecutionContext cfg s executionId with
  | none => s
  | some context =>
    let nodeContext : NodeContext :=
      { node_id := nodeId, node_name := nodeName, node_type := nodeType }
    let r := ExecutionTracker.failNode s.tracker executionId nodeName now
    let s1 := { s with tracker := r.1 }
    sendEvent s1
      (createNodeFailedEvent context now nodeContext r.2 errorMessage
        errorType)

/-! ## Interleaved operations

One step of an interleaving: either a hook lifecycle callback or a direct
tracker method call, each keyed by an execution id and carrying its own
clock reading. -/

/-- One operation of an interleaving, tagged by the same parameters as the
corresponding hook callback or tracker method. -/
inductive HookOp where
  | wfStart (executionId workflowId workflowName : String)
      (mode sessionId : Option String) (isManual : Option Bool)
      (retryOf : Option String)
  | wfComplete (executionId : String) (mode : Option String)
  | wfFail (executionId : String) (errorMessage : String)
      (errorNode errorType stackTrace : Option String)
  | nStart (executionId nodeName nodeType : String) (nodeId : Option String)
      (inputItemsCount : Option Int)
  | nComplete (executionId nodeName nodeType : String)
      (nodeId : Option String) (outputItemsCount : Option Int)
  | nFail (executionId nodeName nodeType : String) (nodeId : Option String)
      (errorMessage : String) (errorType : Option String)
  | trStartExecution (executionId workflowId workflowName : String)
      (sessionId : Option String)
  | trStartNode (executionId nodeName : String) (nodeContext : NodeContext)
      (inputItemsCount : Option Int)
  | trCompleteNode (executionId nodeName : String)
  | trFailNode (executionId nodeName : String)
  | trCleanup (executionId : String)

/-- The execution id an operation is keyed by. -/
def HookOp.execId : HookOp → String
  | .wfStart i .. => i
  | .wfComplete i _ => i
  | .wfFail i .. => i
  | .nStart i .. => i
  | .nComplete i .. => i
  | .nFail i .. => i
  | .trStartExecution i .. => i
  | .trStartNode i .. => i
  | .trCompleteNode i _ => i
  | .trFailNode i _ => i
  | .trCleanup i => i

/-- Apply one operation to the hook state at a given clock reading. -/
def applyHookOp (cfg : HookConfig) (s : HookState) : HookOp → Int → HookState
  | .wfStart i w n mode sid man retry, now =>
    onWorkflowStart cfg s i w n mode sid man retry now
  | .wfComplete i mode, now => onWorkflowComplete cfg s i mode now
  | .wfFail i msg en et st, now => onWorkflowFail cfg s i msg en et st now
  | .nStart i nn nt nid iic, now => onNodeStart cfg s i nn nt nid iic now
  | .nComplete i nn nt nid oic, now => onNodeComplete cfg s i nn nt nid oic now
  | .nFail i nn nt nid msg et, now => onNodeFail cfg s i nn nt nid msg et now
  | .trStartExecution i w n sid, now =>
    { s with tracker :=
        (ExecutionTracker.startExecution s.tracker i w n sid now).1 }
  | .trStartNode i nn ctx iic, now =>
    { s with tracker :=
        (ExecutionTracker.startNode s.tracker i nn ctx iic now).1 }
  | .trCompleteNode i nn, now =>
    { s with tracker := (ExecutionTracker.completeNode s.tracker i nn now).1 }
  | .trFailNode i nn, now =>
    { s with tracker := (ExecutionTracker.failNode s.tracker i nn now).1 }
  | .trCleanup i, _ =>
    { s with tracker := ExecutionTracker.cleanupExecution s.tracker i }

/-- Apply a sequence of operations, each paired with its clock reading. -/
def applyHookOps (cfg : HookConfig) (s : HookState)
    (ops : List (HookOp × Int)) : HookState :=
  ops.foldl (fun st p => applyHookOp cfg st p.1 p.2) s

/-- The tracker well-formedness invariant: every registered state records
the execution id it is keyed by.  It holds of every state the hook builds
(startExecution stores the id it registers under) and is preserved by all
operations. -/
def TrackerWF (s : HookState) : Prop :=
  ∀ k st, (k, st) ∈ s.tracker → st.executionId = k

/-! ## JSON values

The free-form payload/metadata trees that the redaction filter walks and
the file transport serializes are JSON values.  They are embedded as a
mutual inductive (value / array / object) so that every traversal is
structurally recursive.  Numbers are embedded as Int, matching the integral
values (durations, counts) the pipeline stores. -/

mutual

/-- A JSON value. -/
inductive JValue where
  | str (s : String)
  | num (n : Int)
  | bool (b : Bool)
  | null
  | arr (xs : JArray)
  | obj (kvs : JObject)

/-- A JSON array, as its own inductive for structural recursion. -/
inductive JArray where
  | nil
  | cons (head : JValue) (tail : JArray)

/-- A JSON object: an ordered list of key/value entries. -/
inductive JObject where
  | nil
  | cons (key : String) (value : JValue) (tail : JObject)

end

mutual

/-- Structural size of a value (used to bound the parser fuel). -/
def JValue.jsize : JValue → Nat
  | .obj kvs => 1 + JObject.jsize kvs
  | .arr xs => 1 + JArray.jsize xs
  | _ => 1

/-- Size of an array's items. -/
def JArray.jsize : JArray → Nat
  | .nil => 0
  | .cons v t => 1 + JValue.jsize v + JArray.jsize t

/-- Size of an object's entries. -/
def JObject.jsize : JObject → Nat
  | .nil => 0
  | .cons _ v t => 1 + JValue.jsize v + JObject.jsize t

end

/-! ## Redaction filter (transport/base.ts, redactSensitiveData) -/

/-- Contiguous-substring occurrence test on character lists. -/
def listInfix (pat : List Char) : List Char → Bool
  | [] => pat.isEmpty
  | c :: rest => List.isPrefixOf pat (c :: rest) || listInfix pat rest

/-- lowerKey.includes(sub): substring containment on the character lists. -/
def jsStrContains (hay sub : String) : Bool :=
  listInfix sub.data hay.data

/-- fields.some(f => lowerKey.includes(f.toLowerCase())). -/
def shouldRedact (fields : List String) (key : String) : Bool :=
  fields.any (fun f => jsStrContains key.toLower f.toLower)

/-- The fixed redaction marker value. -/
def redactMarker : JValue := .str "[REDACTED]"

/-- Object.entries of a JavaScript array: index keys "0", "1", ...  (This
is what redactSensitiveData iterates when it is handed an array that was
nested directly inside another array.) -/
def arrayEntriesFrom (i : Nat) : JArray → JObject
  | .nil => .nil
  | .cons v t => .cons (toString i) v (arrayEntriesFrom (i + 1) t)

mutual

/-- redactSensitiveData: walks the entries of an object; a key whose
lower-cased form contains a configured field substring is mapped to the
marker, a nested plain object recurses, an array maps its items, any other
value passes through. -/
def redactEntries (fields : List String) : JObject → JObject
  | .nil => .nil
  | .cons k v t =>
    if shouldRedact fields k then
      .cons k redactMarker (redactEntries fields t)
    else
      .cons k (redactEntryValue fields v) (redactEntries fields t)

/-- The per-value branch of redactSensitiveData's entry loop. -/
def redactEntryValue (fields : List String) : JValue → JValue
  | .obj kvs => .obj (redactEntries fields kvs)
  | .arr xs => .arr (redactItems fields xs)
  | v => v

/-- value.map(item => ...) over an array value. -/
def redactItems (fields : List String) : JArray → JArray
  | .nil => .nil
  | .cons v t => .cons (redactItem fields v) (redactItems fields t)

/-- The per-item branch: an object item recurses; an array item is itself
passed to redactSensitiveData, which walks its Object.entries view (index
keys) and so rebuilds it as an object; any other item passes through.  The
array case is fused with the Object.entries view to keep the recursion
structural; redactArrayAsObject below is that fusion. -/
def redactItem (fields : List String) : JValue → JValue
  | .obj kvs => .obj (redactEntries fields kvs)
  | .arr xs => .obj (redactArrayAsObject fields 0 xs)
  | v => v

/-- redactSensitiveData applied to the Object.entries view of an array,
fused into one structural traversal (entry i of the view has key
toString i and the array element as value). -/
def redactArrayAsObject (fields : List String) (i : Nat) : JArray → JObject
  | .nil => .nil
  | .cons v t =>
    if shouldRedact fields (toString i) then
      .cons (toString i) redactMarker (redactArrayAsObject fields (i + 1) t)
    else
      .cons (toString i) (redactEntryValue fields v)
        (redactArrayAsObject fields (i + 1) t)

end

/-- Equality test used by the redaction checker, defined only on scalar
(non-object, non-array) values. -/
def scalarEqB : JValue → JValue → Bool
  | .str a, .str b => a == b
  | .num a, .num b => a == b
  | .bool a, .bool b => a == b
  | .null, .null => true
  | _, _ => false

mutual

/-- Spec-side checker for the redaction claim, written from the words of
the specification rather than from the source: the output object must keep
the input's keys in order; a key whose lower-cased name contains a
configured field substring must be mapped to the redaction marker; for any
other key a nested object or array is checked recursively (at every
nesting depth, including objects that are elements of arrays) and a scalar
value must pass through unchanged.  Arrays nested directly inside arrays
are not constrained by the claim. -/
def c2CheckEntries (fields : List String) : JObject → JObject → Bool
  | .nil, .nil => true
  | .cons k v it, .cons k2 w ot =>
    k2 == k
      && (if shouldRedact fields k then scalarEqB w redactMarker
          else c2CheckValue fields v w)
      && c2CheckEntries fields it ot
  | _, _ => false

/-- Checker for a value under a non-redacted key. -/
def c2CheckValue (fields : List String) : JValue → JValue → Bool
  | .obj ikvs, .obj okvs => c2CheckEntries fields ikvs okvs
  | .obj _, _ => false
  | .arr ixs, .arr oxs => c2CheckItems fields ixs oxs
  | .arr _, _ => false
  | v, w => scalarEqB w v

/-- Checker for the items of an array value, pointwise. -/
def c2CheckItems (fields : List String) : JArray → JArray → Bool
  | .nil, .nil => true
  | .cons i it, .cons o ot =>
    c2CheckItem fields i o && c2CheckItems fields it ot
  | _, _ => false

/-- Checker for one array item: an object item is checked recursively; an
array item is unconstrained by the claim; a scalar item must pass through
unchanged. -/
def c2CheckItem (fields : List String) : JValue → JValue → Bool
  | .obj ikvs, o =>
    (match o with
     | .obj okvs => c2CheckEntries fields ikvs okvs
     | _ => false)
  | .arr _, _ => true
  | v, o => scalarEqB o v

end

/-! ## JSON serialization (JSON.stringify as used by FileTransport)

FileTransport.appendToFile writes events.map(e => JSON.stringify(e))
joined with newlines plus a trailing newline; readFromFile splits the file
content on newlines and JSON.parses each non-blank line, skipping lines
that fail to parse.  JSON.stringify and JSON.parse are part of the
JavaScript host; they are modelled here over the JValue embedding
(numbers restricted to the integral values the pipeline stores). -/

/-- An opening curly brace character (written by code point to keep string
and character literals free of braces). -/
def lbrace : Char := Char.ofNat 123

/-- A closing curly brace character. -/
def rbrace : Char := Char.ofNat 125

/-- The decimal digit character of d < 10. -/
def digitChar (d : Nat) : Char := Char.ofNat (48 + d)

/-- A lowercase hexadecimal digit character, d < 16. -/
def hexChar (d : Nat) : Char :=
  if d < 10 then Char.ofNat (48 + d) else Char.ofNat (87 + d)

/-- The decimal digits of n, most significant first, in front of acc. -/
def natCharsAux (n : Nat) (acc : List Char) : List Char :=
  if n < 10 then digitChar n :: acc
  else natCharsAux (n / 10) (digitChar (n % 10) :: acc)
termination_by n
decreasing_by
  exact Nat.div_lt_self (by omega) (by omega)

/-- The decimal digits of n. -/
def natChars (n : Nat) : List Char := natCharsAux n []

/-- JSON.stringify of an integral number. -/
def intChars (n : Int) : List Char :=
  if n < 0 then '-' :: natChars n.natAbs else natChars n.natAbs

/-- The JSON escape of one string character, as JSON.stringify emits it:
quote and backslash escaped, the short control escapes, the remaining
control characters in \u00xx form, and every other character raw. -/
def escapeChar (c : Char) : List Char :=
  if c = '"' then ['\\', '"']
  else if c = '\\' then ['\\', '\\']
  else if c = '\n' then ['\\', 'n']
  else if c = '\r' then ['\\', 'r']
  else if c = '\t' then ['\\', 't']
  else if c.toNat = 8 then ['\\', 'b']
  else if c.toNat = 12 then ['\\', 'f']
  else if c.toNat < 32 then
    ['\\', 'u', '0', '0', hexChar (c.toNat / 16), hexChar (c.toNat % 16)]
  else [c]

/-- The escaped body of a JSON string literal. -/
def escapeChars (cs : List Char) : List Char := (cs.map escapeChar).flatten

/-- A JSON string literal: quote, escaped body, quote. -/
def quoteChars (s : String) : List Char :=
  '"' :: (escapeChars s.data ++ ['"'])

mutual

/-- JSON.stringify of a value (compact form, as the host emits it). -/
def JValue.stringify : JValue → List Char
  | .str s => quoteChars s
  | .num n => intChars n
  | .bool b => if b then ['t', 'r', 'u', 'e'] else ['f', 'a', 'l', 's', 'e']
  | .null => ['n', 'u', 'l', 'l']
  | .arr xs => '[' :: (JArray.stringifyItems xs ++ [']'])
  | .obj kvs => lbrace :: (JObject.stringifyEntries kvs ++ [rbrace])

/-- The comma-separated items of an array literal. -/
def JArray.stringifyItems : JArray → List Char
  | .nil => []
  | .cons v t => JValue.stringify v ++ JArray.stringifyRest t

/-- The remaining items after the first, each preceded by a comma. -/
def JArray.stringifyRest : JArray → List Char
  | .nil => []
  | .cons v t => ',' :: (JValue.stringify v ++ JArray.stringifyRest t)

/-- The comma-separated entries of an object literal. -/
def JObject.stringifyEntries : JObject → List Char
  | .nil => []
  | .cons k v t =>
    quoteChars k ++ ':' :: (JValue.stringify v ++ JObject.stringifyRest t)

/-- The remaining entries after the first, each preceded by a comma. -/
def JObject.stringifyRest : JObject → List Char
  | .nil => []
  | .cons k v t =>
    ',' :: (quoteChars k ++ ':' :: (JValue.stringify v ++ JObject.stringifyRest t))

end

/-! ## JSON parsing (JSON.parse as used by FileTransport.readFromFile)

A recursive-descent parser over the character list, with a fuel argument
making the mutual recursion structural; fuel bounded below by the size of
the parsed value suffices, and readFromFile hands it the line length. -/

/-- The JSON whitespace characters (space, newline, tab, carriage
return), tested on code points. -/
def isWsChar (c : Char) : Bool :=
  c.toNat = 32 || c.toNat = 10 || c.toNat = 9 || c.toNat = 13

/-- Skip leading JSON whitespace. -/
def skipWs (cs : List Char) : List Char := cs.dropWhile isWsChar

/-- The numeric value of a hexadecimal digit character. -/
def hexVal? (c : Char) : Option Nat :=
  if 48 ≤ c.toNat ∧ c.toNat ≤ 57 then some (c.toNat - 48)
  else if 97 ≤ c.toNat ∧ c.toNat ≤ 102 then some (c.toNat - 87)
  else if 65 ≤ c.toNat ∧ c.toNat ≤ 70 then some (c.toNat - 55)
  else none

/-- The character a short escape stands for. -/
def unescape? (e : Char) : Option Char :=
  if e = '"' then some '"'
  else if e = '\\' then some '\\'
  else if e = '/' then some '/'
  else if e = 'n' then some '\n'
  else if e = 't' then some '\t'
  else if e = 'r' then some '\r'
  else if e = 'b' then some (Char.ofNat 8)
  else if e = 'f' then some (Char.ofNat 12)
  else none

/-- Parse the body of a string literal after its opening quote, returning
the characters up to the closing quote and the remaining input.  Raw
control characters are rejected, as JSON.parse rejects them. -/
def parseStringBody (cs : List Char) : Option (List Char × List Char) :=
  match cs with
  | [] => none
  | c :: rest =>
    if c = '"' then some ([], rest)
    else if c = '\\' then
      match rest with
      | [] => none
      | e :: rest2 =>
        if e = 'u' then
          match rest2 with
          | h1 :: h2 :: h3 :: h4 :: rest6 =>
            match hexVal? h1, hexVal? h2, hexVal? h3, hexVal? h4 with
            | some a, some b, some c2, some d =>
              match parseStringBody rest6 with
              | some (s, r) =>
                some (Char.ofNat (4096 * a + 256 * b + 16 * c2 + d) :: s, r)
              | none => none
            | _, _, _, _ => none
          | _ => none
        else
          match unescape? e with
          | some u =>
            match parseStringBody rest2 with
            | some (s, r) => some (u :: s, r)
            | none => none
          | none => none
    else if c.toNat < 32 then none
    else
      match parseStringBody rest with
      | some (s, r) => some (c :: s, r)
      | none => none
termination_by cs.length
decreasing_by
  all_goals simp_all [List.length_cons]
  all_goals omega

/-- Decimal digit test. -/
def isDigitCh (c : Char) : Bool := 48 ≤ c.toNat && c.toNat ≤ 57

/-- The longest digit prefix and the remaining input. -/
def takeDigits : List Char → List Char × List Char
  | [] => ([], [])
  | c :: rest =>
    if isDigitCh c then
      let (d, r) := takeDigits rest
      (c :: d, r)
    else ([], c :: rest)

/-- The numeric value of a digit list. -/
def digitsVal (ds : List Char) : Nat :=
  ds.foldl (fun a c => 10 * a + (c.toNat - 48)) 0

/-- Parse an integral JSON number (the only numeric form the pipeline
writes): an optional minus sign followed by decimal digits. -/
def parseIntChars (cs : List Char) : Option (Int × List Char) :=
  match cs with
  | [] => none
  | c :: rest =>
    if c = '-' then
      let dr := takeDigits rest
      if dr.1.isEmpty then none else some (-(digitsVal dr.1 : Int), dr.2)
    else
      let dr := takeDigits (c :: rest)
      if dr.1.isEmpty then none else some ((digitsVal dr.1 : Int), dr.2)

mutual

/-- Parse one JSON value at the head of the input (no leading whitespace):
string, true/false/null, array, object or number. -/
def parseValue : Nat → List Char → Option (JValue × List Char)
  | 0, _ => none
  | _ + 1, [] => none
  | fuel + 1, c :: cs =>
    if c = '"' then
      match parseStringBody cs with
      | some (s, r) => some (.str (String.mk s), r)
      | none => none
    else if c = 't' then
      match cs with
      | 'r' :: 'u' :: 'e' :: r => some (.bool true, r)
      | _ => none
    else if c = 'f' then
      match cs with
      | 'a' :: 'l' :: 's' :: 'e' :: r => some (.bool false, r)
      | _ => none
    else if c = 'n' then
      match cs with
      | 'u' :: 'l' :: 'l' :: r => some (.null, r)
      | _ => none
    else if c = '[' then
      match skipWs cs with
      | [] => none
      | c1 :: r1 =>
        if c1 = ']' then some (.arr .nil, r1)
        else
          match parseItems fuel (c1 :: r1) with
          | some (xs, r) => some (.arr xs, r)
          | none => none
    else if c = lbrace then
      match skipWs cs with
      | [] => none
      | c1 :: r1 =>
        if c1 = rbrace then some (.obj .nil, r1)
        else
          match parseEntries fuel (c1 :: r1) with
          | some (kvs, r) => some (.obj kvs, r)
          | none => none
    else if c = '-' || isDigitCh c then
      match parseIntChars (c :: cs) with
      | some (n, r) => some (.num n, r)
      | none => none
    else none

/-- Parse the non-empty comma-separated items of an array up to and
including the closing bracket. -/
def parseItems : Nat → List Char → Option (JArray × List Char)
  | 0, _ => none
  | fuel + 1, cs =>
    match parseValue fuel cs with
    | none => none
    | some (v, r) =>
      match skipWs r with
      | ',' :: r2 =>
        (match parseItems fuel (skipWs r2) with
         | some (xs, r3) => some (.cons v xs, r3)
         | none => none)
      | ']' :: r2 => some (.cons v .nil, r2)
      | _ => none

/-- Parse the non-empty comma-separated key/value entries of an object up
to and including the closing brace. -/
def parseEntries : Nat → List Char → Option (JObject × List Char)
  | 0, _ => none
  | fuel + 1, cs =>
    match cs with
    | '"' :: cs1 =>
      (match parseStringBody cs1 with
       | some (k, r) =>
         (match skipWs r with
          | ':' :: r2 =>
            (match parseValue fuel (skipWs r2) with
             | some (v, r3) =>
               (match skipWs r3 with
                | [] => none
                | c4 :: r4 =>
                  if c4 = ',' then
                    match parseEntries fuel (skipWs r4) with
                    | some (t, r5) => some (.cons (String.mk k) v t, r5)
                    | none => none
                  else if c4 = rbrace then
                    some (.cons (String.mk k) v .nil, r4)
                  else none)
             | none => none)
          | _ => none)
       | none => none)
    | _ => none

end

/-- JSON.parse of one whole line: the single value it contains, with
surrounding whitespace allowed; none models the thrown SyntaxError. -/
def parseJsonLine (cs : List Char) : Option JValue :=
  let cs1 := skipWs cs
  match parseValue (cs1.length + 1) cs1 with
  | some (v, r) => if (skipWs r).isEmpty then some v else none
  | none => none

/-! ## FileTransport.appendToFile / readFromFile (transport/file.ts)

The file is its character content; appendToFile appends the
newline-joined, newline-terminated serialization of a batch, readFromFile
trims the content, splits it on newlines, drops blank lines and parses the
rest, skipping lines that fail to parse. -/

/-- lines.join(sep) with a one-character separator, on character lists. -/
def intercalateNl : List (List Char) → List Char
  | [] => []
  | [l] => l
  | l :: ls => l ++ '\n' :: intercalateNl ls

/-- events.map(JSON.stringify).join newline-separated plus the trailing
newline, as appendToFile builds it. -/
def serializeBatch (events : List JValue) : List Char :=
  intercalateNl (events.map JValue.stringify) ++ ['\n']

/-- FileTransport.appendToFile: append the serialized batch to the file
content (the per-path lock serializes concurrent appends; a single append
is modelled directly). -/
def appendToFile (content : List Char) (events : List JValue) : List Char :=
  content ++ serializeBatch events

/-- A sequence of appendToFile calls (one per doSend / doSendBatch)
starting from the empty file. -/
def writeBatches (batches : List (List JValue)) : List Char :=
  batches.foldl appendToFile []

/-- String.prototype.split with separator newline. -/
def splitNl : List Char → List (List Char)
  | [] => [[]]
  | c :: rest =>
    if c = '\n' then [] :: splitNl rest
    else
      match splitNl rest with
      | [] => [[c]]
      | l :: ls => (c :: l) :: ls

/-- The characters String.prototype.trim removes (the whitespace the file
content can contain). -/
def isTrimWs (c : Char) : Bool :=
  isWsChar c || c.toNat = 11 || c.toNat = 12

/-- String.prototype.trim on character lists. -/
def jsTrim (cs : List Char) : List Char :=
  ((cs.dropWhile isTrimWs).reverse.dropWhile isTrimWs).reverse

/-- FileTransport.readFromFile: trim, split on newlines, drop blank lines,
JSON.parse each remaining line and skip the ones that throw. -/
def readFromFile (content : List Char) : List JValue :=
  (((splitNl (jsTrim content)).filter
      (fun line => !(jsTrim line).isEmpty)).filterMap parseJsonLine)

/-! ## Concrete example inputs

Fixed concrete transports, states and event traces used by the witness and
counterexample theorems below. -/

/-- A member transport whose send always rejects (test double). -/
def memberAlwaysFails : MemberTransport Nat :=
  { name := "file", received := [], failsOn := fun _ => true }

/-- A member transport whose send always resolves (test double). -/
def memberNeverFails : MemberTransport Nat :=
  { name := "http", received := [5], failsOn := fun _ => false }

/-- A fixed example transport state: two buffered events, timer running,
nothing delivered yet. -/
def exampleBTState : BTState Nat :=
  { buffer := [1, 2], timerActive := true, delivered := [], closed := false }

/-- The node context of the failing node in the C4 scenario traces. -/
def c4NodeCtx : NodeContext := { node_name := "Parse", node_type := "json" }

/-- A trace with two workflow.failed events: the first carries a different
message, the one carrying "Invalid JSON response" comes second, followed by
a node failure.  The evaluator's events.find picks the first. -/
def c4CexEvents : List MEvent :=
  [{ execution_id := "e1",
     kind := .workflowFailed 500 "other boom" none none none },
   { execution_id := "e1",
     kind := .workflowFailed 500 "Invalid JSON response" none none none },
   { execution_id := "e1",
     kind := .nodeFailed c4NodeCtx (some 5) "node boom" none }]

/-- The workflow.failed event of the well-behaved C4 scenario trace. -/
def c4FailedEvent : MEvent :=
  { execution_id := "e1",
    kind := .workflowFailed 500 "Invalid JSON response" none none none }

/-- A well-behaved C4 scenario trace: one workflow failure with the
"Invalid JSON response" message, after one node failure. -/
def c4GoodEvents : List MEvent :=
  [{ execution_id := "e1",
     kind := .nodeFailed c4NodeCtx (some 5) "node boom" none },
   c4FailedEvent]

/-- The empty hook state. -/
def emptyHookState : HookState :=
  { tracker := [], executionEvents := [], transportLog := [] }

/-- A registered execution state for execution id "A". -/
def isoExecState : ExecutionState :=
  { executionId := "A", workflowId := "w", workflowName := "wf"
    startTime := 0, nodeTimings := [], completedNodes := []
    failedNodes := [] }

/-- A hook state with execution "A" in flight. -/
def isoState : HookState :=
  { tracker := [("A", isoExecState)]
    executionEvents := [("A", [])]
    transportLog := [] }

/-- A full lifecycle of execution "B" (hook callbacks and direct tracker
calls), to be interleaved against the in-flight execution "A". -/
def c7Ops : List (HookOp × Int) :=
  [(.wfStart "B" "w2" "wf2" none none none none, 1),
   (.nStart "B" "n1" "t" none none, 2),
   (.trStartNode "B" "n2" { node_name := "n2", node_type := "t" } none, 3),
   (.nComplete "B" "n1" "t" none none, 4),
   (.trCompleteNode "B" "n2", 5),
   (.nFail "B" "n1" "t" none "boom" none, 6),
   (.wfComplete "B" none, 7),
   (.trCleanup "B", 8)]

/-! # Part II: Theorems -/

/-! ## Transport defaults (claim C9) -/

/-- C9 counterexample: with the default (empty) configuration the HTTP
transport does buffer, but its default buffer size (50) is NOT higher than
the File transport's default buffer size (100), refuting the claim as
stated. -/
theorem http_buffer_size_not_higher_cex :
    (httpResolveConfig {}).buffered = true ∧
    ¬ ((fileResolveConfig {}).bufferSize < (httpResolveConfig {}).bufferSize) := by
  decide

/-- C9 (amended): the HTTP transport buffers by default, and its default
buffer size is 50, which is lower than the File transport's default buffer
size of 100. -/
theorem http_buffered_default_and_size_lower :
    (httpResolveConfig {}).buffered = true ∧
    (httpResolveConfig {}).bufferSize = 50 ∧
    (fileResolveConfig {}).bufferSize = 100 ∧
    (httpResolveConfig {}).bufferSize < (fileResolveConfig {}).bufferSize := by
  decide

/-! ## MultiTransport fan-out (claim C6) -/

/-- C6: MultiTransport.send always resolves (never raises), the resulting
member list is exactly each member's own send outcome — so one member's
rejection cannot affect any sibling — and a member whose own send does not
reject receives the event appended to its log, while a rejecting member is
left unchanged. -/
theorem multiSend_absorbs_member_failures {α : Type}
    (ts : List (MemberTransport α)) (e : α) :
    (multiSend ts e).2 = none ∧
    (multiSend ts e).1 = ts.map (fun t => (memberSend t e).1) ∧
    (∀ t : MemberTransport α, t.failsOn e = false →
      (memberSend t e).1.received = t.received ++ [e]) ∧
    (∀ t : MemberTransport α, t.failsOn e = true → (memberSend t e).1 = t) := by
  refine ⟨?_, ?_, ?_, ?_⟩
  · induction ts with
    | nil => rfl
    | cons t ts ih =>
      simpa [multiSend, promiseAll, catchLogged] using ih
  · simp [multiSend, promiseAll, catchLogged]
  · intro t h
    simp [memberSend, h]
  · intro t h
    simp [memberSend, h]

/-- C6 witness: with a failing and a healthy member, the composite send
resolves and the healthy member still receives the event. -/
theorem multiSend_absorbs_member_failures_witness :
    (multiSend [memberAlwaysFails, memberNeverFails] 7).2 = none ∧
    (memberSend memberNeverFails 7).1.received =
      memberNeverFails.received ++ [7] ∧
    (memberSend memberAlwaysFails 7).1 = memberAlwaysFails :=
  ⟨(multiSend_absorbs_member_failures [memberAlwaysFails, memberNeverFails] 7).1,
   (multiSend_absorbs_member_failures [memberAlwaysFails, memberNeverFails]
      7).2.2.1 memberNeverFails rfl,
   (multiSend_absorbs_member_failures [memberAlwaysFails, memberNeverFails]
      7).2.2.2 memberAlwaysFails rfl⟩

/-! ## BaseTransport flush and close (claims C8, C10) -/

/-- Behaviour of one flush call: the buffer is empty afterwards in every
case, the timer and closed flag are untouched, a resolving flush delivers
exactly the buffered events in order, and a rejecting flush delivers
nothing. -/
theorem flushBT_spec {α : Type} (o : List α → Bool) (s : BTState α) :
    (flushBT o s).1.buffer = [] ∧
    (flushBT o s).1.timerActive = s.timerActive ∧
    (flushBT o s).1.closed = s.closed ∧
    ((flushBT o s).2 = none →
      (flushBT o s).1.delivered = s.delivered ++ s.buffer) ∧
    ((flushBT o s).2 ≠ none → (flushBT o s).1.delivered = s.delivered) := by
  unfold flushBT
  by_cases hb : s.buffer.isEmpty
  · simp [hb]
    simp [List.isEmpty_iff] at hb
    simp [hb]
  · by_cases ho : o s.buffer <;> simp [hb, ho]

/-- C8: close always leaves the flush timer cleared; the outcome of close
is exactly the outcome of the flush it performs (a flush rejection
propagates to the caller of close); and when close resolves, the remaining
buffered events were all delivered, the buffer is empty and the transport
is closed. -/
theorem closeBT_clears_timer_and_flushes {α : Type} (o : List α → Bool)
    (s : BTState α) :
    (closeBT o s).1.timerActive = false ∧
    (closeBT o s).2 = (flushBT o { s with timerActive := false }).2 ∧
    ((closeBT o s).2 = none →
      (closeBT o s).1.delivered = s.delivered ++ s.buffer ∧
      (closeBT o s).1.buffer = [] ∧
      (closeBT o s).1.closed = true) := by
  have hf := flushBT_spec o { s with timerActive := false }
  unfold closeBT
  dsimp only
  split
  next s2 heq =>
    rw [heq] at hf
    refine ⟨by simpa using hf.2.1, by rw [heq],
      fun _ => ⟨by simpa using hf.2.2.2.1 rfl, by simpa using hf.1, rfl⟩⟩
  next s2 e heq =>
    rw [heq] at hf
    exact ⟨by simpa using hf.2.1, by rw [heq], fun h => by simp at h⟩

/-- C8 witness: on a state with a running timer and a non-empty buffer
whose doSendBatch rejects, close reports the flush failure and the timer
is nevertheless cleared. -/
theorem closeBT_clears_timer_and_flushes_witness :
    (closeBT (fun _ => false) exampleBTState).1.timerActive = false ∧
    (closeBT (fun _ => false) exampleBTState).2 =
      some "doSendBatch rejected" ∧
    (closeBT (fun _ => true) exampleBTState).1.delivered =
      exampleBTState.delivered ++ exampleBTState.buffer :=
  ⟨(closeBT_clears_timer_and_flushes (fun _ => false) exampleBTState).1,
   by
    have h := (closeBT_clears_timer_and_flushes (fun _ => false)
      exampleBTState).2.1
    rw [h]; decide,
   ((closeBT_clears_timer_and_flushes (fun _ => true)
      exampleBTState).2.2 (by decide)).1⟩

/-- C10: flush empties the buffer before attempting delivery, so when the
underlying doSendBatch rejects a non-empty batch the error propagates but
nothing was delivered and the events are gone from the buffering layer: a
later flush is a resolved no-op and a later close delivers nothing more. -/
theorem flushBT_drops_events_on_failure {α : Type} (o o2 : List α → Bool)
    (s : BTState α) :
    (flushBT o s).1.buffer = [] ∧
    (s.buffer ≠ [] → o s.buffer = false →
      (flushBT o s).2 = some "doSendBatch rejected" ∧
      (flushBT o s).1.delivered = s.delivered) ∧
    flushBT o2 (flushBT o s).1 = ((flushBT o s).1, none) ∧
    (closeBT o2 (flushBT o s).1).1.delivered = (flushBT o s).1.delivered := by
  have hf := flushBT_spec o s
  have hempty : ∀ (o3 : List α → Bool) (t : BTState α), t.buffer = [] →
      flushBT o3 t = (t, none) := by
    intro o3 t ht
    unfold flushBT
    simp [ht]
  refine ⟨hf.1, ?_, ?_, ?_⟩
  · intro hb ho
    constructor
    · unfold flushBT
      simp [List.isEmpty_iff, hb, ho]
    · refine hf.2.2.2.2 ?_
      unfold flushBT
      simp [List.isEmpty_iff, hb, ho]
  · exact hempty o2 _ hf.1
  · generalize hgen : (flushBT o s).1 = t at hf ⊢
    unfold closeBT
    dsimp only
    rw [hempty o2 { t with timerActive := false } (by simpa using hf.1)]

/-- C10 witness: a failing flush of the example state reports the error,
leaves the buffer empty, and a later flush or close retries nothing. -/
theorem flushBT_drops_events_on_failure_witness :
    (flushBT (fun _ => false) exampleBTState).1.buffer = [] ∧
    (flushBT (fun _ => false) exampleBTState).2 =
      some "doSendBatch rejected" ∧
    (flushBT (fun _ => false) exampleBTState).1.delivered =
      exampleBTState.delivered :=
  ⟨(flushBT_drops_events_on_failure (fun _ => false) (fun _ => false)
      exampleBTState).1,
   ((flushBT_drops_events_on_failure (fun _ => false) (fun _ => false)
      exampleBTState).2.1 (by decide) rfl).1,
   ((flushBT_drops_events_on_failure (fun _ => false) (fun _ => false)
      exampleBTState).2.1 (by decide) rfl).2⟩

/-! ## Evaluator score range and empty input (claim C1) -/

/-- C1: for every finite event sequence the default-configuration score is
an integer (by type) in the closed interval [0, 100], and on the empty
sequence evaluate returns score 100 with no labels, no reasons, and
metrics whose numeric fields are 0 and whose optional fields
(slowest_node, llm_metrics) are absent. -/
theorem evaluate_score_range_and_empty :
    (∀ events : List MEvent,
      0 ≤ (evaluate defaultEvaluatorConfig events).score ∧
      (evaluate defaultEvaluatorConfig events).score ≤ 100) ∧
    evaluate defaultEvaluatorConfig [] =
      { score := 100, labels := [], reasons := [],
        metrics := { total_duration_ms := 0, node_count := 0,
                     failed_node_count := 0, slowest_node := none,
                     avg_node_duration_ms := 0, llm_metrics := none } } := by
  constructor
  · intro events
    show 0 ≤ clampScore _ ∧ clampScore _ ≤ 100
    unfold clampScore
    exact ⟨le_max_left 0 _, max_le (by norm_num) (min_le_left 100 _)⟩
  · rfl

/-! ## Evaluator failure scenario (claim C4) -/

/-- C4 counterexample: the claim quantifies over every sequence containing
a workflow.failed event with message "Invalid JSON response" and a
node.failed event, but evaluate reports only the FIRST workflow.failed
event's message.  On c4CexEvents both premises hold, yet no reason
contains "Invalid JSON response". -/
theorem evaluate_verbatim_reason_cex :
    (∃ e ∈ c4CexEvents, e.kind.eventType = "workflow.failed" ∧
      e.errorMessage = "Invalid JSON response") ∧
    (∃ e ∈ c4CexEvents, e.kind.eventType = "node.failed") ∧
    ¬ (∃ r ∈ (evaluate defaultEvaluatorConfig c4CexEvents).reasons,
        jsStrContains r "Invalid JSON response" = true) := by
  decide

/-- C4 (amended): for every event sequence whose FIRST workflow.failed
event carries the error message "Invalid JSON response" and that contains
at least one node.failed event, evaluate under the default configuration
returns a score of at most 30, labels containing both "workflow_failed"
and "node_failures", and a reason containing the error message verbatim. -/
theorem evaluate_invalid_json_scenario (events : List MEvent)
    (hwf : ∃ e, workflowFailedEvent? events = some e ∧
      e.errorMessage = "Invalid JSON response")
    (hnf : 0 < (nodeFailedEvents events).length) :
    (evaluate defaultEvaluatorConfig events).score ≤ 30 ∧
    "workflow_failed" ∈ (evaluate defaultEvaluatorConfig events).labels ∧
    "node_failures" ∈ (evaluate defaultEvaluatorConfig events).labels ∧
    ∃ r ∈ (evaluate defaultEvaluatorConfig events).reasons,
      jsStrContains r "Invalid JSON response" = true := by
  obtain ⟨e, hfind, hmsg⟩ := hwf
  have hsome : (workflowFailedEvent? events).isSome = true := by
    rw [hfind]; rfl
  refine ⟨?_, ?_, ?_, ?_⟩
  · show clampScore (rawScore defaultEvaluatorConfig events) ≤ 30
    have hraw : rawScore defaultEvaluatorConfig events ≤ 30 := by
      unfold rawScore
      dsimp only [defaultEvaluatorConfig]
      rw [hsome]
      have hd : totalDurationMs events > 60000 →
          0 ≤ Int.fdiv ((totalDurationMs events - 60000) * 2) 1000 :=
        fun h => Int.fdiv_nonneg (by omega) (by norm_num)
      have hnfI : (0 : Int) < ((nodeFailedEvents events).length : Int) := by
        exact_mod_cast hnf
      have hmin : min (100 : Int) 30 = 30 := by norm_num
      rw [hmin]
      split_ifs with h1 h2 h3 h4
      all_goals try exact absurd rfl (by assumption)
      all_goals omega
    unfold clampScore
    omega
  · show "workflow_failed" ∈ labelsOf defaultEvaluatorConfig events
    unfold labelsOf
    rw [hsome]
    simp
  · show "node_failures" ∈ labelsOf defaultEvaluatorConfig events
    unfold labelsOf
    have : ((nodeFailedEvents events).length > 0) := hnf
    simp [this, hsome]
  · show ∃ r ∈ reasonsOf defaultEvaluatorConfig events, _
    refine ⟨"Workflow failed: " ++ e.errorMessage, ?_, ?_⟩
    · unfold reasonsOf rule1Reasons
      rw [hfind]
      simp
    · rw [hmsg]
      decide

/-- C4 witness: the amended theorem applied to the well-behaved scenario
trace. -/
theorem evaluate_invalid_json_scenario_witness :
    (evaluate defaultEvaluatorConfig c4GoodEvents).score ≤ 30 ∧
    "workflow_failed" ∈ (evaluate defaultEvaluatorConfig c4GoodEvents).labels ∧
    "node_failures" ∈ (evaluate defaultEvaluatorConfig c4GoodEvents).labels ∧
    ∃ r ∈ (evaluate defaultEvaluatorConfig c4GoodEvents).reasons,
      jsStrContains r "Invalid JSON response" = true :=
  evaluate_invalid_json_scenario c4GoodEvents
    ⟨c4FailedEvent, by decide, by decide⟩ (by decide)

/-! ## Unknown or expired executions (claim C5) -/

/-- C5: for an execution id with no tracker state (never started, or
already cleaned up), every tracker method is a zero-value no-op
(completeNode and failNode return 0, completeExecution returns duration 0
and node count 0, startNode records nothing) and every hook callback for
that id leaves the whole hook state unchanged and emits no event.  All of
these are total functions: none of them raises an error. -/
theorem unknown_execution_noop (cfg : HookConfig) (s : HookState)
    (executionId nodeName nodeType : String)
    (nodeId : Option String) (ctx : NodeContext)
    (iic oic : Option Int) (mode errNode errType stack : Option String)
    (errorMessage : String) (now : Int)
    (h : MMap.get s.tracker executionId = none) :
    ExecutionTracker.completeNode s.tracker executionId nodeName now =
      (s.tracker, 0) ∧
    ExecutionTracker.failNode s.tracker executionId nodeName now =
      (s.tracker, 0) ∧
    ExecutionTracker.completeExecution s.tracker executionId now = (0, 0) ∧
    ExecutionTracker.startNode s.tracker executionId nodeName ctx iic now =
      (s.tracker, none) ∧
    onNodeStart cfg s executionId nodeName nodeType nodeId iic now = s ∧
    onNodeComplete cfg s executionId nodeName nodeType nodeId oic now = s ∧
    onNodeFail cfg s executionId nodeName nodeType nodeId errorMessage
      errType now = s ∧
    onWorkflowComplete cfg s executionId mode now = s ∧
    onWorkflowFail cfg s executionId errorMessage errNode errType stack
      now = s := by
  have hctx : getExecutionContext cfg s executionId = none := by
    unfold getExecutionContext
    rw [h]
  refine ⟨?_, ?_, ?_, ?_, ?_, ?_, ?_, ?_, ?_⟩
  · unfold ExecutionTracker.completeNode; rw [h]
  · unfold ExecutionTracker.failNode; rw [h]
  · unfold ExecutionTracker.completeExecution; rw [h]
  · unfold ExecutionTracker.startNode; rw [h]
  · unfold onNodeStart; rw [hctx]
  · unfold onNodeComplete; rw [hctx]
  · unfold onNodeFail; rw [hctx]
  · unfold onWorkflowComplete; rw [hctx]
  · unfold onWorkflowFail; rw [hctx]

/-- C5 witness: on the empty hook state, completing a node of an unknown
execution returns 0 and the node and terminal callbacks change nothing. -/
theorem unknown_execution_noop_witness :
    ExecutionTracker.completeNode emptyHookState.tracker "e9" "n" 5 =
      (emptyHookState.tracker, 0) ∧
    onNodeComplete {} emptyHookState "e9" "n" "t" none none 5 =
      emptyHookState ∧
    onWorkflowComplete {} emptyHookState "e9" none 5 = emptyHookState := by
  have h := unknown_execution_noop {} emptyHookState "e9" "n" "t" none
    { node_name := "n", node_type := "t" } none none none none none none
    "boom" 5 (by decide)
  exact ⟨h.1, h.2.2.2.2.2.1, h.2.2.2.2.2.2.2.1⟩

/-! ## Concurrent-execution isolation (claim C7) -/

/-- Setting one key of a map leaves every other key's lookup unchanged. -/
theorem MMap.get_set_ne {α : Type} (m : MMap α) (k k' : String) (v : α)
    (h : k ≠ k') : MMap.get (MMap.set m k v) k' = MMap.get m k' := by
  induction m with
  | nil => simp [MMap.set, MMap.get, h]
  | cons p rest ih =>
    obtain ⟨k0, v0⟩ := p
    by_cases hp : k0 = k
    · subst hp
      simp [MMap.set, MMap.get, h]
    · simp [MMap.set, MMap.get, hp, ih]

/-- Erasing one key of a map leaves every other key's lookup unchanged. -/
theorem MMap.get_erase_ne {α : Type} (m : MMap α) (k k' : String)
    (h : k ≠ k') : MMap.get (MMap.erase m k) k' = MMap.get m k' := by
  induction m with
  | nil => simp [MMap.erase, MMap.get]
  | cons p rest ih =>
    obtain ⟨k0, v0⟩ := p
    by_cases hp : k0 = k
    · subst hp
      simp [MMap.erase, MMap.get, h]
    · simp [MMap.erase, MMap.get, hp, ih]

/-- An entry of a map after set is the new entry or an old one. -/
theorem MMap.mem_set {α : Type} (m : MMap α) (k k'' : String) (v v'' : α)
    (h : (k'', v'') ∈ MMap.set m k v) :
    (k'' = k ∧ v'' = v) ∨ (k'', v'') ∈ m := by
  induction m with
  | nil =>
    simp [MMap.set] at h
    exact Or.inl h
  | cons p rest ih =>
    obtain ⟨k0, v0⟩ := p
    by_cases hp : k0 = k
    · subst hp
      simp [MMap.set] at h
      rcases h with h | h
      · exact Or.inl h
      · exact Or.inr (List.mem_cons_of_mem _ h)
    · simp [MMap.set, hp] at h
      rcases h with h | h
      · exact Or.inr (by simp [h])
      · rcases ih h with h' | h'
        · exact Or.inl h'
        · exact Or.inr (List.mem_cons_of_mem _ h')

/-- An entry of a map after erase was an entry before. -/
theorem MMap.mem_erase {α : Type} (m : MMap α) (k : String)
    (p : String × α) (h : p ∈ MMap.erase m k) : p ∈ m := by
  induction m with
  | nil => simp [MMap.erase] at h
  | cons q rest ih =>
    obtain ⟨k0, v0⟩ := q
    by_cases hp : k0 = k
    · subst hp
      simp [MMap.erase] at h
      exact List.mem_cons_of_mem _ h
    · simp [MMap.erase, hp] at h
      rcases h with h | h
      · simp [h]
      · exact List.mem_cons_of_mem _ (ih h)

/-- A successful lookup is an entry of the map. -/
theorem MMap.get_mem {α : Type} (m : MMap α) (k : String) (v : α)
    (h : MMap.get m k = some v) : (k, v) ∈ m := by
  induction m with
  | nil => simp [MMap.get] at h
  | cons p rest ih =>
    obtain ⟨k0, v0⟩ := p
    by_cases hp : k0 = k
    · subst hp
      simp [MMap.get] at h
      simp [h]
    · simp [MMap.get, hp] at h
      exact List.mem_cons_of_mem _ (ih h)

/-- Each tracker method keyed by one execution id leaves lookups at every
other id unchanged. -/
theorem tracker_op_frame (tr : MMap ExecutionState)
    (i id' nodeName workflowId workflowName : String) (ctx : NodeContext)
    (sessionId : Option String) (iic : Option Int) (now : Int)
    (hne : i ≠ id') :
    MMap.get (ExecutionTracker.startExecution tr i workflowId workflowName
      sessionId now).1 id' = MMap.get tr id' ∧
    MMap.get (ExecutionTracker.startNode tr i nodeName ctx iic now).1 id' =
      MMap.get tr id' ∧
    MMap.get (ExecutionTracker.completeNode tr i nodeName now).1 id' =
      MMap.get tr id' ∧
    MMap.get (ExecutionTracker.failNode tr i nodeName now).1 id' =
      MMap.get tr id' ∧
    MMap.get (ExecutionTracker.cleanupExecution tr i) id' =
      MMap.get tr id' := by
  refine ⟨?_, ?_, ?_, ?_, ?_⟩
  · unfold ExecutionTracker.startExecution
    exact MMap.get_set_ne tr i id' _ hne
  · unfold ExecutionTracker.startNode
    cases hg : MMap.get tr i with
    | none => rfl
    | some st => exact MMap.get_set_ne tr i id' _ hne
  · unfold ExecutionTracker.completeNode
    cases hg : MMap.get tr i with
    | none => rfl
    | some st =>
      dsimp only
      cases ht : MMap.get st.nodeTimings nodeName with
      | none => rfl
      | some timing =>
        dsimp only
        exact MMap.get_set_ne tr i id' _ hne
  · unfold ExecutionTracker.failNode
    cases hg : MMap.get tr i with
    | none => rfl
    | some st =>
      dsimp only
      cases ht : MMap.get st.nodeTimings nodeName with
      | none => rfl
      | some timing =>
        dsimp only
        exact MMap.get_set_ne tr i id' _ hne
  · exact MMap.get_erase_ne tr i id' hne

/-- Under the tracker invariant, the context built for an execution id
carries that id. -/
theorem getExecutionContext_execution_id (cfg : HookConfig) (s : HookState)
    (i : String) (ctx : ExecutionContext) (hWF : TrackerWF s)
    (h : getExecutionContext cfg s i = some ctx) : ctx.execution_id = i := by
  unfold getExecutionContext at h
  cases hg : MMap.get s.tracker i with
  | none => rw [hg] at h; exact absurd h (by simp)
  | some st =>
    rw [hg] at h
    have := hWF i st (MMap.get_mem _ _ _ hg)
    simp at h
    rw [← h]
    exact this

/-- sendEvent only touches the buffer keyed by the event's execution id. -/
theorem sendEvent_frame (s : HookState) (e : MEvent) (id' : String)
    (hne : e.execution_id ≠ id') :
    (sendEvent s e).tracker = s.tracker ∧
    MMap.get (sendEvent s e).executionEvents id' =
      MMap.get s.executionEvents id' :=
  ⟨rfl, MMap.get_set_ne _ _ _ _ hne⟩

/-- The per-entry tracker invariant is preserved by set when the new state
carries its key. -/
theorem mapWF_set (tr : MMap ExecutionState) (i : String)
    (st' : ExecutionState)
    (h : ∀ k st, (k, st) ∈ tr → st.executionId = k)
    (hst : st'.executionId = i) :
    ∀ k st, (k, st) ∈ MMap.set tr i st' → st.executionId = k := by
  intro k st hmem
  rcases MMap.mem_set tr i k st' st hmem with ⟨hk, hv⟩ | hmem'
  · rw [hk, hv]; exact hst
  · exact h k st hmem'

/-- The per-entry tracker invariant is preserved by erase. -/
theorem mapWF_erase (tr : MMap ExecutionState) (i : String)
    (h : ∀ k st, (k, st) ∈ tr → st.executionId = k) :
    ∀ k st, (k, st) ∈ MMap.erase tr i → st.executionId = k :=
  fun k st hmem => h k st (MMap.mem_erase tr i (k, st) hmem)

/-- Each tracker method preserves the per-entry tracker invariant. -/
theorem tracker_op_wf (tr : MMap ExecutionState)
    (i nodeName workflowId workflowName : String) (ctx : NodeContext)
    (sessionId : Option String) (iic : Option Int) (now : Int)
    (h : ∀ k st, (k, st) ∈ tr → st.executionId = k) :
    (∀ k st, (k, st) ∈ (ExecutionTracker.startExecution tr i workflowId
      workflowName sessionId now).1 → st.executionId = k) ∧
    (∀ k st, (k, st) ∈ (ExecutionTracker.startNode tr i nodeName ctx iic
      now).1 → st.executionId = k) ∧
    (∀ k st, (k, st) ∈ (ExecutionTracker.completeNode tr i nodeName now).1 →
      st.executionId = k) ∧
    (∀ k st, (k, st) ∈ (ExecutionTracker.failNode tr i nodeName now).1 →
      st.executionId = k) ∧
    (∀ k st, (k, st) ∈ ExecutionTracker.cleanupExecution tr i →
      st.executionId = k) := by
  refine ⟨?_, ?_, ?_, ?_, mapWF_erase tr i h⟩
  · unfold ExecutionTracker.startExecution
    exact mapWF_set tr i _ h rfl
  · unfold ExecutionTracker.startNode
    cases hg : MMap.get tr i with
    | none => exact h
    | some st =>
      dsimp only
      exact mapWF_set tr i _ h (h i st (MMap.get_mem _ _ _ hg))
  · unfold ExecutionTracker.completeNode
    cases hg : MMap.get tr i with
    | none => exact h
    | some st =>
      dsimp only
      cases ht : MMap.get st.nodeTimings nodeName with
      | none => exact h
      | some timing =>
        dsimp only
        exact mapWF_set tr i _ h (h i st (MMap.get_mem _ _ _ hg))
  · unfold ExecutionTracker.failNode
    cases hg : MMap.get tr i with
    | none => exact h
    | some st =>
      dsimp only
      cases ht : MMap.get st.nodeTimings nodeName with
      | none => exact h
      | some timing =>
        dsimp only
        exact mapWF_set tr i _ h (h i st (MMap.get_mem _ _ _ hg))

/-- onWorkflowStart preserves the tracker invariant and leaves every other
execution's tracker entry and event buffer unchanged. -/
theorem onWorkflowStart_frame_wf (cfg : HookConfig) (s : HookState)
    (i w n : String) (mode sid : Option String) (man : Option Bool)
    (retry : Option String) (now : Int) (hWF : TrackerWF s) :
    TrackerWF (onWorkflowStart cfg s i w n mode sid man retry now) ∧
    ∀ id', i ≠ id' →
      MMap.get (onWorkflowStart cfg s i w n mode sid man retry now).tracker
        id' = MMap.get s.tracker id' ∧
      MMap.get (onWorkflowStart cfg s i w n mode sid man retry
        now).executionEvents id' = MMap.get s.executionEvents id' := by
  have htrwf := (tracker_op_wf s.tracker i "x" w n
    { node_name := "x", node_type := "x" } sid none now hWF).1
  unfold onWorkflowStart
  dsimp only
  split
  next heq =>
    exact ⟨htrwf, fun id' hne =>
      ⟨(tracker_op_frame s.tracker i id' "x" w n
          { node_name := "x", node_type := "x" } sid none now hne).1,
       MMap.get_set_ne _ _ _ _ hne⟩⟩
  next ctx heq =>
    have hid : ctx.execution_id = i :=
      getExecutionContext_execution_id cfg _ i ctx (by exact htrwf) heq
    refine ⟨htrwf, fun id' hne => ⟨?_, ?_⟩⟩
    · exact (tracker_op_frame s.tracker i id' "x" w n
        { node_name := "x", node_type := "x" } sid none now hne).1
    · show MMap.get (MMap.set (MMap.set s.executionEvents i _)
        ctx.execution_id _) id' = _
      rw [MMap.get_set_ne _ _ _ _ (by show ctx.execution_id ≠ id'; rw [hid]; exact hne),
        MMap.get_set_ne _ _ _ _ hne]

/-- onNodeStart preserves the tracker invariant and leaves every other
execution's tracker entry and event buffer unchanged. -/
theorem onNodeStart_frame_wf (cfg : HookConfig) (s : HookState)
    (i nodeName nodeType : String) (nodeId : Option String)
    (iic : Option Int) (now : Int) (hWF : TrackerWF s) :
    TrackerWF (onNodeStart cfg s i nodeName nodeType nodeId iic now) ∧
    ∀ id', i ≠ id' →
      MMap.get (onNodeStart cfg s i nodeName nodeType nodeId iic
        now).tracker id' = MMap.get s.tracker id' ∧
      MMap.get (onNodeStart cfg s i nodeName nodeType nodeId iic
        now).executionEvents id' = MMap.get s.executionEvents id' := by
  unfold onNodeStart
  dsimp only
  split
  next heq => exact ⟨hWF, fun id' hne => ⟨rfl, rfl⟩⟩
  next ctx heq =>
    have hid : ctx.execution_id = i :=
      getExecutionContext_execution_id cfg s i ctx hWF heq
    have htrwf := (tracker_op_wf s.tracker i nodeName "w" "n"
      { node_id := nodeId, node_name := nodeName, node_type := nodeType }
      none iic now hWF).2.1
    refine ⟨htrwf, fun id' hne => ⟨?_, ?_⟩⟩
    · exact (tracker_op_frame s.tracker i id' nodeName "w" "n"
        { node_id := nodeId, node_name := nodeName, node_type := nodeType }
        none iic now hne).2.1
    · exact MMap.get_set_ne _ _ _ _ (by show ctx.execution_id ≠ id'; rw [hid]; exact hne)

/-- onNodeComplete preserves the tracker invariant and leaves every other
execution's tracker entry and event buffer unchanged. -/
theorem onNodeComplete_frame_wf (cfg : HookConfig) (s : HookState)
    (i nodeName nodeType : String) (nodeId : Option String)
    (oic : Option Int) (now : Int) (hWF : TrackerWF s) :
    TrackerWF (onNodeComplete cfg s i nodeName nodeType nodeId oic now) ∧
    ∀ id', i ≠ id' →
      MMap.get (onNodeComplete cfg s i nodeName nodeType nodeId oic
        now).tracker id' = MMap.get s.tracker id' ∧
      MMap.get (onNodeComplete cfg s i nodeName nodeType nodeId oic
        now).executionEvents id' = MMap.get s.executionEvents id' := by
  unfold onNodeComplete
  dsimp only
  split
  next heq => exact ⟨hWF, fun id' hne => ⟨rfl, rfl⟩⟩
  next ctx heq =>
    have hid : ctx.execution_id = i :=
      getExecutionContext_execution_id cfg s i ctx hWF heq
    have htrwf := (tracker_op_wf s.tracker i nodeName "w" "n"
      { node_name := nodeName, node_type := nodeType }
      none none now hWF).2.2.1
    refine ⟨htrwf, fun id' hne => ⟨?_, ?_⟩⟩
    · exact (tracker_op_frame s.tracker i id' nodeName "w" "n"
        { node_name := nodeName, node_type := nodeType }
        none none now hne).2.2.1
    · exact MMap.get_set_ne _ _ _ _ (by show ctx.execution_id ≠ id'; rw [hid]; exact hne)

/-- onNodeFail preserves the tracker invariant and leaves every other
execution's tracker entry and event buffer unchanged. -/
theorem onNodeFail_frame_wf (cfg : HookConfig) (s : HookState)
    (i nodeName nodeType : String) (nodeId : Option String)
    (errorMessage : String) (errorType : Option String) (now : Int)
    (hWF : TrackerWF s) :
    TrackerWF (onNodeFail cfg s i nodeName nodeType nodeId errorMessage
      errorType now) ∧
    ∀ id', i ≠ id' →
      MMap.get (onNodeFail cfg s i nodeName nodeType nodeId errorMessage
        errorType now).tracker id' = MMap.get s.tracker id' ∧
      MMap.get (onNodeFail cfg s i nodeName nodeType nodeId errorMessage
        errorType now).executionEvents id' =
        MMap.get s.executionEvents id' := by
  unfold onNodeFail
  dsimp only
  split
  next heq => exact ⟨hWF, fun id' hne => ⟨rfl, rfl⟩⟩
  next ctx heq =>
    have hid : ctx.execution_id = i :=
      getExecutionContext_execution_id cfg s i ctx hWF heq
    have htrwf := (tracker_op_wf s.tracker i nodeName "w" "n"
      { node_name := nodeName, node_type := nodeType }
      none none now hWF).2.2.2.1
    refine ⟨htrwf, fun id' hne => ⟨?_, ?_⟩⟩
    · exact (tracker_op_frame s.tracker i id' nodeName "w" "n"
        { node_name := nodeName, node_type := nodeType }
        none none now hne).2.2.2.1
    · exact MMap.get_set_ne _ _ _ _ (by show ctx.execution_id ≠ id'; rw [hid]; exact hne)

/-- runEvaluation never touches the tracker. -/
theorem runEvaluation_tracker (cfg : HookConfig) (t : HookState)
    (i : String) (ctx : ExecutionContext) (now : Int) :
    (runEvaluation cfg t i ctx now).tracker = t.tracker := by
  unfold runEvaluation
  dsimp only
  split
  · rfl
  · rfl

/-- runEvaluation only touches the buffer keyed by the evaluated
execution. -/
theorem runEvaluation_events (cfg : HookConfig) (t : HookState) (i : String)
    (ctx : ExecutionContext) (now : Int) (id' : String)
    (hid : ctx.execution_id = i) (hne : i ≠ id') :
    MMap.get (runEvaluation cfg t i ctx now).executionEvents id' =
      MMap.get t.executionEvents id' := by
  unfold runEvaluation
  dsimp only
  split
  · rfl
  · exact MMap.get_set_ne _ _ _ _ (by show ctx.execution_id ≠ id'; rw [hid]; exact hne)

/-- hookCleanup preserves the tracker invariant. -/
theorem hookCleanup_wf (t : HookState) (i : String) (hWF : TrackerWF t) :
    TrackerWF (hookCleanup t i) :=
  mapWF_erase t.tracker i hWF

/-- hookCleanup leaves every other execution's entries unchanged. -/
theorem hookCleanup_get (t : HookState) (i id' : String) (hne : i ≠ id') :
    MMap.get (hookCleanup t i).tracker id' = MMap.get t.tracker id' ∧
    MMap.get (hookCleanup t i).executionEvents id' =
      MMap.get t.executionEvents id' :=
  ⟨MMap.get_erase_ne t.tracker i id' hne,
   MMap.get_erase_ne t.executionEvents i id' hne⟩

/-- onWorkflowComplete preserves the tracker invariant and leaves every
other execution's tracker entry and event buffer unchanged. -/
theorem onWorkflowComplete_frame_wf (cfg : HookConfig) (s : HookState)
    (i : String) (mode : Option String) (now : Int) (hWF : TrackerWF s) :
    TrackerWF (onWorkflowComplete cfg s i mode now) ∧
    ∀ id', i ≠ id' →
      MMap.get (onWorkflowComplete cfg s i mode now).tracker id' =
        MMap.get s.tracker id' ∧
      MMap.get (onWorkflowComplete cfg s i mode now).executionEvents id' =
        MMap.get s.executionEvents id' := by
  unfold onWorkflowComplete
  dsimp only
  split
  next heq => exact ⟨hWF, fun id' hne => ⟨rfl, rfl⟩⟩
  next ctx heq =>
    have hid : ctx.execution_id = i :=
      getExecutionContext_execution_id cfg s i ctx hWF heq
    set s1 := sendEvent s
      (createWorkflowCompletedEvent ctx now
        (ExecutionTracker.completeExecution s.tracker i now).1
        (ExecutionTracker.completeExecution s.tracker i now).2 mode) with hs1
    set s2 := if cfg.enableEvaluation = true then
      runEvaluation cfg s1 i ctx now else s1 with hs2
    have h1tr : s1.tracker = s.tracker := rfl
    have h2tr : s2.tracker = s.tracker := by
      rw [hs2]
      cases hev : cfg.enableEvaluation with
      | false => simpa using h1tr
      | true => simpa [runEvaluation_tracker] using h1tr
    have h2wf : TrackerWF s2 := by
      unfold TrackerWF
      rw [h2tr]
      exact hWF
    refine ⟨hookCleanup_wf s2 i h2wf, fun id' hne => ⟨?_, ?_⟩⟩
    · rw [(hookCleanup_get s2 i id' hne).1, h2tr]
    · rw [(hookCleanup_get s2 i id' hne).2]
      have h1ev : MMap.get s1.executionEvents id' =
          MMap.get s.executionEvents id' := by
        rw [hs1]
        exact MMap.get_set_ne _ _ _ _
          (by show ctx.execution_id ≠ id'; rw [hid]; exact hne)
      rw [hs2]
      cases hev : cfg.enableEvaluation with
      | false => simpa using h1ev
      | true =>
        simp only [ite_true]
        rw [runEvaluation_events cfg s1 i ctx now id' hid hne]
        exact h1ev

/-- onWorkflowFail preserves the tracker invariant and leaves every other
execution's tracker entry and event buffer unchanged. -/
theorem onWorkflowFail_frame_wf (cfg : HookConfig) (s : HookState)
    (i errorMessage : String) (errNode errType stack : Option String)
    (now : Int) (hWF : TrackerWF s) :
    TrackerWF (onWorkflowFail cfg s i errorMessage errNode errType stack
      now) ∧
    ∀ id', i ≠ id' →
      MMap.get (onWorkflowFail cfg s i errorMessage errNode errType stack
        now).tracker id' = MMap.get s.tracker id' ∧
      MMap.get (onWorkflowFail cfg s i errorMessage errNode errType stack
        now).executionEvents id' = MMap.get s.executionEvents id' := by
  unfold onWorkflowFail
  dsimp only
  split
  next heq => exact ⟨hWF, fun id' hne => ⟨rfl, rfl⟩⟩
  next ctx heq =>
    have hid : ctx.execution_id = i :=
      getExecutionContext_execution_id cfg s i ctx hWF heq
    set s1 := sendEvent s
      (createWorkflowFailedEvent ctx now
        (ExecutionTracker.completeExecution s.tracker i now).1 errorMessage
        errNode errType stack) with hs1
    set s2 := if cfg.enableEvaluation = true then
      runEvaluation cfg s1 i ctx now else s1 with hs2
    have h1tr : s1.tracker = s.tracker := rfl
    have h2tr : s2.tracker = s.tracker := by
      rw [hs2]
      cases hev : cfg.enableEvaluation with
      | false => simpa using h1tr
      | true => simpa [runEvaluation_tracker] using h1tr
    have h2wf : TrackerWF s2 := by
      unfold TrackerWF
      rw [h2tr]
      exact hWF
    refine ⟨hookCleanup_wf s2 i h2wf, fun id' hne => ⟨?_, ?_⟩⟩
    · rw [(hookCleanup_get s2 i id' hne).1, h2tr]
    · rw [(hookCleanup_get s2 i id' hne).2]
      have h1ev : MMap.get s1.executionEvents id' =
          MMap.get s.executionEvents id' := by
        rw [hs1]
        exact MMap.get_set_ne _ _ _ _
          (by show ctx.execution_id ≠ id'; rw [hid]; exact hne)
      rw [hs2]
      cases hev : cfg.enableEvaluation with
      | false => simpa using h1ev
      | true =>
        simp only [ite_true]
        rw [runEvaluation_events cfg s1 i ctx now id' hid hne]
        exact h1ev

/-- Every hook callback and direct tracker call preserves the tracker
invariant and leaves the entries of every other execution id unchanged. -/
theorem applyHookOp_frame_wf (cfg : HookConfig) (s : HookState)
    (op : HookOp) (now : Int) (hWF : TrackerWF s) :
    TrackerWF (applyHookOp cfg s op now) ∧
    ∀ id', op.execId ≠ id' →
      MMap.get (applyHookOp cfg s op now).tracker id' =
        MMap.get s.tracker id' ∧
      MMap.get (applyHookOp cfg s op now).executionEvents id' =
        MMap.get s.executionEvents id' := by
  cases op with
  | wfStart i w n mode sid man retry =>
    exact onWorkflowStart_frame_wf cfg s i w n mode sid man retry now hWF
  | wfComplete i mode => exact onWorkflowComplete_frame_wf cfg s i mode now hWF
  | wfFail i msg en et st =>
    exact onWorkflowFail_frame_wf cfg s i msg en et st now hWF
  | nStart i nn nt nid iic => exact onNodeStart_frame_wf cfg s i nn nt nid iic now hWF
  | nComplete i nn nt nid oic =>
    exact onNodeComplete_frame_wf cfg s i nn nt nid oic now hWF
  | nFail i nn nt nid msg et =>
    exact onNodeFail_frame_wf cfg s i nn nt nid msg et now hWF
  | trStartExecution i w n sid =>
    refine ⟨?_, fun id' hne => ⟨?_, rfl⟩⟩
    · exact (tracker_op_wf s.tracker i "x" w n
        { node_name := "x", node_type := "x" } sid none now hWF).1
    · exact (tracker_op_frame s.tracker i id' "x" w n
        { node_name := "x", node_type := "x" } sid none now hne).1
  | trStartNode i nn ctx iic =>
    refine ⟨?_, fun id' hne => ⟨?_, rfl⟩⟩
    · exact (tracker_op_wf s.tracker i nn "w" "n" ctx none iic now hWF).2.1
    · exact (tracker_op_frame s.tracker i id' nn "w" "n" ctx none iic now
        hne).2.1
  | trCompleteNode i nn =>
    refine ⟨?_, fun id' hne => ⟨?_, rfl⟩⟩
    · exact (tracker_op_wf s.tracker i nn "w" "n"
        { node_name := "x", node_type := "x" } none none now hWF).2.2.1
    · exact (tracker_op_frame s.tracker i id' nn "w" "n"
        { node_name := "x", node_type := "x" } none none now hne).2.2.1
  | trFailNode i nn =>
    refine ⟨?_, fun id' hne => ⟨?_, rfl⟩⟩
    · exact (tracker_op_wf s.tracker i nn "w" "n"
        { node_name := "x", node_type := "x" } none none now hWF).2.2.2.1
    · exact (tracker_op_frame s.tracker i id' nn "w" "n"
        { node_name := "x", node_type := "x" } none none now hne).2.2.2.1
  | trCleanup i =>
    refine ⟨?_, fun id' hne => ⟨?_, rfl⟩⟩
    · exact mapWF_erase s.tracker i hWF
    · exact MMap.get_erase_ne s.tracker i id' hne

/-- C7: under the tracker invariant, applying any sequence of hook
callbacks and tracker operations, all keyed by execution ids different
from a given one, leaves that execution's tracker state and per-execution
event buffer exactly unchanged — interleaved executions are isolated. -/
theorem hook_ops_isolation (cfg : HookConfig) (s : HookState)
    (ops : List (HookOp × Int)) (id' : String) (hWF : TrackerWF s)
    (hne : ∀ p ∈ ops, (p.1).execId ≠ id') :
    MMap.get (applyHookOps cfg s ops).tracker id' =
      MMap.get s.tracker id' ∧
    MMap.get (applyHookOps cfg s ops).executionEvents id' =
      MMap.get s.executionEvents id' := by
  induction ops generalizing s with
  | nil => exact ⟨rfl, rfl⟩
  | cons p rest ih =>
    have h1 := applyHookOp_frame_wf cfg s p.1 p.2 hWF
    have h2 := ih (applyHookOp cfg s p.1 p.2) h1.1
      (fun q hq => hne q (List.mem_cons_of_mem _ hq))
    have h3 := h1.2 id' (hne p (List.mem_cons_self _ _))
    unfold applyHookOps at *
    rw [List.foldl_cons]
    exact ⟨h2.1.trans h3.1, h2.2.trans h3.2⟩

/-- C7 witness: running a full lifecycle of execution "B" (interleaving
hook callbacks and direct tracker calls) against a state with execution
"A" in flight leaves "A"'s tracker entry and event buffer unchanged. -/
theorem hook_ops_isolation_witness :
    MMap.get (applyHookOps {} isoState c7Ops).tracker "A" =
      MMap.get isoState.tracker "A" ∧
    MMap.get (applyHookOps {} isoState c7Ops).executionEvents "A" =
      MMap.get isoState.executionEvents "A" :=
  hook_ops_isolation {} isoState c7Ops "A"
    (by
      intro k st h
      simp [isoState] at h
      rw [h.2, h.1]
      rfl)
    (by decide)

/-! ## Redaction filter (claim C2) -/

/-- The fused array-as-object traversal equals redactSensitiveData applied
to the Object.entries view of the array, as the source composes them. -/
theorem redactArrayAsObject_eq (fields : List String) :
    (i : Nat) → (xs : JArray) →
      redactArrayAsObject fields i xs =
        redactEntries fields (arrayEntriesFrom i xs)
  | _, .nil => by simp [redactArrayAsObject, arrayEntriesFrom, redactEntries]
  | i, .cons v t => by
    by_cases h : shouldRedact fields (toString i)
    · simp [redactArrayAsObject, arrayEntriesFrom, redactEntries, h,
        redactArrayAsObject_eq fields (i + 1) t]
    · simp [redactArrayAsObject, arrayEntriesFrom, redactEntries, h,
        redactArrayAsObject_eq fields (i + 1) t]

mutual

/-- The checker passes on the entries of a redacted object. -/
theorem c2_entries (fields : List String) :
    (kvs : JObject) →
      c2CheckEntries fields kvs (redactEntries fields kvs) = true
  | .nil => by simp [redactEntries, c2CheckEntries]
  | .cons k v t => by
    by_cases h : shouldRedact fields k
    · simp [redactEntries, c2CheckEntries, h, c2_entries fields t]
      rfl
    · simp [redactEntries, c2CheckEntries, h, c2_entries fields t,
        c2_value fields v]

/-- The checker passes on a redacted value under a non-redacted key. -/
theorem c2_value (fields : List String) :
    (v : JValue) →
      c2CheckValue fields v (redactEntryValue fields v) = true
  | .obj kvs => by
    simp [redactEntryValue, c2CheckValue, c2_entries fields kvs]
  | .arr xs => by
    simp [redactEntryValue, c2CheckValue, c2_items fields xs]
  | .str s => by simp [redactEntryValue, c2CheckValue, scalarEqB]
  | .num n => by simp [redactEntryValue, c2CheckValue, scalarEqB]
  | .bool b => by simp [redactEntryValue, c2CheckValue, scalarEqB]
  | .null => by simp [redactEntryValue, c2CheckValue, scalarEqB]

/-- The checker passes on the items of a redacted array. -/
theorem c2_items (fields : List String) :
    (xs : JArray) →
      c2CheckItems fields xs (redactItems fields xs) = true
  | .nil => by simp [redactItems, c2CheckItems]
  | .cons v t => by
    simp [redactItems, c2CheckItems, c2_item fields v, c2_items fields t]

/-- The checker passes on one redacted array item. -/
theorem c2_item (fields : List String) :
    (v : JValue) → c2CheckItem fields v (redactItem fields v) = true
  | .obj kvs => by
    simp [redactItem, c2CheckItem, c2_entries fields kvs]
  | .arr xs => by simp [redactItem, c2CheckItem]
  | .str s => by simp [redactItem, c2CheckItem, scalarEqB]
  | .num n => by simp [redactItem, c2CheckItem, scalarEqB]
  | .bool b => by simp [redactItem, c2CheckItem, scalarEqB]
  | .null => by simp [redactItem, c2CheckItem, scalarEqB]

end

/-- C2: for every redaction field list and every object,
redactSensitiveData returns a structure satisfying the claim checker: keys
are kept in order, every key whose lower-cased name contains a configured
field substring is mapped to the redaction marker at every nesting depth
(including keys of objects that are elements of arrays), and every other
scalar value passes through unchanged.  The function builds a fresh result
object (the embedding is pure, and the source never writes to its
argument), so the input is not mutated. -/
theorem redactSensitiveData_matches_claim (fields : List String)
    (kvs : JObject) :
    c2CheckEntries fields kvs (redactEntries fields kvs) = true :=
  c2_entries fields kvs


/-! ## JSON printer/parser round trip and the File Transport file cycle
(C3)

JSON.stringify output is reparsed by the recursive-descent JSON.parse
embedding; on top of that, the newline-framed file format written by
FileTransport.appendToFile is read back losslessly by readFromFile. -/

theorem char_toNat_ofNat (n : Nat) (h : n < 55296) :
    (Char.ofNat n).toNat = n := by
  unfold Char.ofNat
  rw [dif_pos (Or.inl h)]
  rfl

example : (Char.ofNat 150).toNat = 150 := char_toNat_ofNat 150 (by norm_num)

theorem hexVal_hexChar (d : Nat) (h : d < 16) :
    hexVal? (hexChar d) = some d := by
  interval_cases d <;> rfl

theorem digitChar_toNat (d : Nat) (h : d < 10) :
    (digitChar d).toNat = 48 + d := by
  unfold digitChar
  exact char_toNat_ofNat (48 + d) (by omega)

theorem isDigitCh_digitChar (d : Nat) (h : d < 10) :
    isDigitCh (digitChar d) = true := by
  simp [isDigitCh, digitChar_toNat d h]
  omega

theorem natCharsAux_digits (n : Nat) : ∀ acc : List Char,
    (∀ c ∈ acc, isDigitCh c = true) →
    ∀ c ∈ natCharsAux n acc, isDigitCh c = true := by
  induction n using Nat.strong_induction_on with
  | _ n ih =>
    intro acc hacc c hc
    rw [natCharsAux] at hc
    by_cases h : n < 10
    · rw [if_pos h] at hc
      rcases List.mem_cons.mp hc with h1 | h1
      · rw [h1]; exact isDigitCh_digitChar n h
      · exact hacc c h1
    · rw [if_neg h] at hc
      refine ih (n / 10) (Nat.div_lt_self (by omega) (by omega)) _ ?_ c hc
      intro c' hc'
      rcases List.mem_cons.mp hc' with h1 | h1
      · rw [h1]; exact isDigitCh_digitChar (n % 10) (Nat.mod_lt _ (by omega))
      · exact hacc c' h1

theorem natCharsAux_ne_nil (n : Nat) (acc : List Char) :
    natCharsAux n acc ≠ [] := by
  rw [natCharsAux]
  by_cases h : n < 10
  · simp [h]
  · rw [if_neg h]
    exact natCharsAux_ne_nil (n / 10) _
termination_by n
decreasing_by
  exact Nat.div_lt_self (by omega) (by omega)

theorem natChars_digits (n : Nat) : ∀ c ∈ natChars n, isDigitCh c = true :=
  natCharsAux_digits n [] (by simp)

theorem takeDigits_all_append (ds : List Char)
    (hds : ∀ c ∈ ds, isDigitCh c = true) : ∀ rest : List Char,
    (∀ c, rest.head? = some c → isDigitCh c = false) →
    takeDigits (ds ++ rest) = (ds, rest) := by
  induction ds with
  | nil =>
    intro rest hrest
    cases rest with
    | nil => rfl
    | cons c t =>
      have := hrest c rfl
      simp [takeDigits, this]
  | cons c t ih =>
    intro rest hrest
    have hc : isDigitCh c = true := hds c (by simp)
    have h2 := ih (fun c' h' => hds c' (by simp [h'])) rest hrest
    simp only [List.cons_append, takeDigits, hc, if_true, List.append_eq, h2]

theorem natCharsAux_length (n : Nat) : ∀ acc : List Char,
    (natCharsAux n acc).length = (natCharsAux n []).length + acc.length := by
  induction n using Nat.strong_induction_on with
  | _ n ih =>
    intro acc
    by_cases h : n < 10
    · rw [natCharsAux, if_pos h, natCharsAux, if_pos h]
      simp
      omega
    · rw [natCharsAux, if_neg h]
      conv_rhs => rw [natCharsAux, if_neg h]
      have hlt : n / 10 < n := Nat.div_lt_self (by omega) (by omega)
      rw [ih (n / 10) hlt (digitChar (n % 10) :: acc),
        ih (n / 10) hlt [digitChar (n % 10)]]
      simp only [List.length_cons, List.length_nil]
      omega

theorem foldl_digits_natCharsAux (n : Nat) : ∀ (acc : List Char) (a : Nat),
    (natCharsAux n acc).foldl (fun a c => 10 * a + (c.toNat - 48)) a =
      acc.foldl (fun a c => 10 * a + (c.toNat - 48))
        (a * 10 ^ (natCharsAux n []).length + n) := by
  induction n using Nat.strong_induction_on with
  | _ n ih =>
    intro acc a
    by_cases h : n < 10
    · rw [natCharsAux, if_pos h]
      conv_rhs => rw [natCharsAux, if_pos h]
      simp [List.foldl_cons, digitChar_toNat n h]
      rw [Nat.mul_comm 10 a]
    · have hlt : n / 10 < n := Nat.div_lt_self (by omega) (by omega)
      rw [natCharsAux, if_neg h]
      rw [ih (n / 10) hlt (digitChar (n % 10) :: acc) a]
      conv_rhs => rw [natCharsAux, if_neg h]
      rw [natCharsAux_length (n / 10) [digitChar (n % 10)]]
      simp only [List.foldl_cons]
      rw [digitChar_toNat (n % 10) (Nat.mod_lt _ (by omega))]
      have : 10 * (a * 10 ^ (natCharsAux (n / 10) []).length + n / 10) +
          (48 + n % 10 - 48) =
          a * 10 ^ ((natCharsAux (n / 10) []).length + 1) + n := by
        rw [pow_succ]
        have := Nat.div_add_mod n 10
        ring_nf
        omega
      rw [this]
      simp

theorem digitsVal_natChars (n : Nat) : digitsVal (natChars n) = n := by
  unfold digitsVal natChars
  rw [foldl_digits_natCharsAux n [] 0]
  simp

theorem isDigitCh_ne_minus {c : Char} (h : isDigitCh c = true) :
    ¬ c = '-' := by
  intro hc
  rw [hc] at h
  simp [isDigitCh] at h

theorem natChars_isEmpty_false (n : Nat) :
    (natChars n).isEmpty = false := by
  cases hnc : natChars n with
  | nil => exact absurd hnc (natCharsAux_ne_nil n [])
  | cons c t => rfl

theorem parseIntChars_intChars (n : Int) (rest : List Char)
    (hrest : ∀ c, rest.head? = some c → isDigitCh c = false) :
    parseIntChars (intChars n ++ rest) = some (n, rest) := by
  have htd : takeDigits (natChars n.natAbs ++ rest) = (natChars n.natAbs, rest) :=
    takeDigits_all_append (natChars n.natAbs) (natChars_digits n.natAbs)
      rest hrest
  by_cases hneg : n < 0
  · rw [intChars, if_pos hneg]
    rw [List.cons_append]
    unfold parseIntChars
    simp only [if_pos rfl, htd, natChars_isEmpty_false, Bool.false_eq_true,
      if_false, digitsVal_natChars]
    have : -(n.natAbs : Int) = n := by omega
    rw [this]
    simp
  · rw [intChars, if_neg hneg]
    cases hnc : natChars n.natAbs with
    | nil => exact absurd hnc (natCharsAux_ne_nil n.natAbs [])
    | cons c t =>
      have hc : isDigitCh c = true := by
        refine natChars_digits n.natAbs c ?_
        rw [hnc]; simp
      rw [List.cons_append]
      unfold parseIntChars
      simp only [isDigitCh_ne_minus hc, if_false, ← List.cons_append, ← hnc,
        htd, natChars_isEmpty_false, Bool.false_eq_true, digitsVal_natChars]
      have : (n.natAbs : Int) = n := by omega
      rw [this]

theorem parseStringBody_escape (l : List Char) : ∀ rest : List Char,
    parseStringBody (escapeChars l ++ '"' :: rest) = some (l, rest) := by
  induction l with
  | nil =>
    intro rest
    rw [show escapeChars [] = [] from rfl]
    rw [parseStringBody.eq_def]
    simp
  | cons c l ih =>
    intro rest
    rw [show escapeChars (c :: l) = escapeChar c ++ escapeChars l from by
      simp [escapeChars]]
    rw [List.append_assoc]
    by_cases h1 : c = '"'
    · subst h1
      rw [show escapeChar '"' = ['\\', '"'] from by simp [escapeChar]]
      rw [parseStringBody.eq_def]
      simp [unescape?, ih rest]
    · by_cases h2 : c = '\\'
      · subst h2
        rw [show escapeChar '\\' = ['\\', '\\'] from by simp [escapeChar]]
        rw [parseStringBody.eq_def]
        simp [unescape?, ih rest]
      · by_cases h3 : c = '\n'
        · subst h3
          rw [show escapeChar '\n' = ['\\', 'n'] from by simp [escapeChar]]
          rw [parseStringBody.eq_def]
          simp [unescape?, ih rest]
        · by_cases h4 : c = '\r'
          · subst h4
            rw [show escapeChar '\r' = ['\\', 'r'] from by simp [escapeChar]]
            rw [parseStringBody.eq_def]
            simp [unescape?, ih rest]
          · by_cases h5 : c = '\t'
            · subst h5
              rw [show escapeChar '\t' = ['\\', 't'] from by
                simp [escapeChar]]
              rw [parseStringBody.eq_def]
              simp [unescape?, ih rest]
            · by_cases h6 : c.toNat = 8
              · rw [show escapeChar c = ['\\', 'b'] from by
                  simp [escapeChar, h1, h2, h3, h4, h5, h6]]
                rw [parseStringBody.eq_def]
                simp [unescape?, ih rest]
                rw [show Char.ofNat 8 = c from by
                  rw [← h6]; exact Char.ofNat_toNat c]
              · by_cases h7 : c.toNat = 12
                · rw [show escapeChar c = ['\\', 'f'] from by
                    simp [escapeChar, h1, h2, h3, h4, h5, h6, h7]]
                  rw [parseStringBody.eq_def]
                  simp [unescape?, ih rest]
                  rw [show Char.ofNat 12 = c from by
                    rw [← h7]; exact Char.ofNat_toNat c]
                · by_cases h8 : c.toNat < 32
                  · rw [show escapeChar c = ['\\', 'u', '0', '0',
                      hexChar (c.toNat / 16), hexChar (c.toNat % 16)] from by
                      simp [escapeChar, h1, h2, h3, h4, h5, h6, h7, h8]]
                    rw [parseStringBody.eq_def]
                    have hv1 : hexVal? (hexChar (c.toNat / 16)) =
                        some (c.toNat / 16) :=
                      hexVal_hexChar _ (by omega)
                    have hv2 : hexVal? (hexChar (c.toNat % 16)) =
                        some (c.toNat % 16) :=
                      hexVal_hexChar _ (by omega)
                    have hv0 : hexVal? '0' = some 0 := by decide
                    simp [hv0, hv1, hv2, ih rest]
                    rw [show 16 * (c.toNat / 16) + c.toNat % 16 = c.toNat from
                      by omega]
                    exact Char.ofNat_toNat c
                  · rw [show escapeChar c = [c] from by
                      simp [escapeChar, h1, h2, h3, h4, h5, h6, h7, h8]]
                    rw [List.cons_append, List.nil_append, parseStringBody.eq_def]
                    simp [h1, h2, h8, ih rest]

theorem natChars_head_digit (n : Nat) :
    ∃ c t, natChars n = c :: t ∧ isDigitCh c = true := by
  cases hnc : natChars n with
  | nil => exact absurd hnc (natCharsAux_ne_nil n [])
  | cons c t =>
    refine ⟨c, t, rfl, natChars_digits n c ?_⟩
    rw [hnc]; simp

theorem stringify_head (v : JValue) :
    ∃ c t, JValue.stringify v = c :: t ∧
      (c = '"' ∨ c = '-' ∨ isDigitCh c = true ∨ c = 't' ∨ c = 'f' ∨
        c = 'n' ∨ c = '[' ∨ c = lbrace) := by
  cases v with
  | str s =>
    exact ⟨'"', escapeChars s.data ++ ['"'],
      by simp [JValue.stringify, quoteChars], Or.inl rfl⟩
  | num n =>
    by_cases h : n < 0
    · refine ⟨'-', natChars n.natAbs, ?_, Or.inr (Or.inl rfl)⟩
      simp [JValue.stringify, intChars, h]
    · obtain ⟨c, t, hct, hd⟩ := natChars_head_digit n.natAbs
      refine ⟨c, t, ?_, Or.inr (Or.inr (Or.inl hd))⟩
      simp [JValue.stringify, intChars, h, hct]
  | bool b =>
    cases b with
    | true =>
      exact ⟨'t', ['r', 'u', 'e'], by simp [JValue.stringify],
        Or.inr (Or.inr (Or.inr (Or.inl rfl)))⟩
    | false =>
      exact ⟨'f', ['a', 'l', 's', 'e'], by simp [JValue.stringify],
        Or.inr (Or.inr (Or.inr (Or.inr (Or.inl rfl))))⟩
  | null =>
    exact ⟨'n', ['u', 'l', 'l'], by simp [JValue.stringify],
      Or.inr (Or.inr (Or.inr (Or.inr (Or.inr (Or.inl rfl)))))⟩
  | arr xs =>
    exact ⟨'[', JArray.stringifyItems xs ++ [']'], by simp [JValue.stringify],
      Or.inr (Or.inr (Or.inr (Or.inr (Or.inr (Or.inr (Or.inl rfl))))))⟩
  | obj kvs =>
    exact ⟨lbrace, JObject.stringifyEntries kvs ++ [rbrace],
      by simp [JValue.stringify],
      Or.inr (Or.inr (Or.inr (Or.inr (Or.inr (Or.inr (Or.inr rfl))))))⟩

theorem head_disj_not_trimws {c : Char}
    (h : c = '"' ∨ c = '-' ∨ isDigitCh c = true ∨ c = 't' ∨ c = 'f' ∨
      c = 'n' ∨ c = '[' ∨ c = lbrace) : isTrimWs c = false := by
  rcases h with h | h | h | h | h | h | h | h
  all_goals first
    | (subst h; decide)
    | (simp [isTrimWs, isWsChar, isDigitCh] at *; omega)

theorem head_disj_not_bracket {c : Char}
    (h : c = '"' ∨ c = '-' ∨ isDigitCh c = true ∨ c = 't' ∨ c = 'f' ∨
      c = 'n' ∨ c = '[' ∨ c = lbrace) : c ≠ ']' ∧ c ≠ rbrace := by
  constructor
  all_goals
    intro hc
    subst hc
    rcases h with h | h | h | h | h | h | h | h <;> revert h <;> decide

theorem digit_not_trimws {c : Char} (h : isDigitCh c = true) :
    isTrimWs c = false := by
  simp [isTrimWs, isWsChar, isDigitCh] at *
  omega

theorem isWsChar_of_isTrimWs {c : Char} (h : isTrimWs c = false) :
    isWsChar c = false := by
  simp [isTrimWs] at h
  exact h.1.1

theorem skipWs_not_ws {c : Char} (h : isWsChar c = false) (cs : List Char) :
    skipWs (c :: cs) = c :: cs := by
  simp [skipWs, List.dropWhile_cons, h]

theorem skipWs_stringify (v : JValue) (r : List Char) :
    skipWs (JValue.stringify v ++ r) = JValue.stringify v ++ r := by
  obtain ⟨c, t, hct, hd⟩ := stringify_head v
  rw [hct, List.cons_append]
  exact skipWs_not_ws
    (isWsChar_of_isTrimWs (head_disj_not_trimws hd)) _

theorem natChars_last (n : Nat) :
    ∃ c, (natChars n).getLast? = some c ∧ isDigitCh c = true := by
  have hne : natChars n ≠ [] := natCharsAux_ne_nil n []
  refine ⟨(natChars n).getLast hne, List.getLast?_eq_getLast _ hne, ?_⟩
  exact natChars_digits n _ (List.getLast_mem hne)

theorem stringify_last (v : JValue) :
    ∃ c, (JValue.stringify v).getLast? = some c ∧ isTrimWs c = false := by
  cases v with
  | str s =>
    refine ⟨'"', ?_, by decide⟩
    show (('"' :: escapeChars s.data) ++ ['"']).getLast? = some '"'
    exact List.getLast?_concat _
  | num n =>
    obtain ⟨c, hc, hd⟩ := natChars_last n.natAbs
    by_cases h : n < 0
    · refine ⟨c, ?_, digit_not_trimws hd⟩
      rw [show JValue.stringify (.num n) = '-' :: natChars n.natAbs from by
        simp [JValue.stringify, intChars, h]]
      obtain ⟨c0, t0, hct, _⟩ := natChars_head_digit n.natAbs
      rw [hct] at hc ⊢
      rw [List.getLast?_cons_cons]
      exact hc
    · refine ⟨c, ?_, digit_not_trimws hd⟩
      rw [show JValue.stringify (.num n) = natChars n.natAbs from by
        simp [JValue.stringify, intChars, h]]
      exact hc
  | bool b => cases b <;> exact ⟨_, rfl, by decide⟩
  | null => exact ⟨'l', rfl, by decide⟩
  | arr xs =>
    refine ⟨']', ?_, by decide⟩
    show (('[' :: JArray.stringifyItems xs) ++ [']']).getLast? = some ']'
    exact List.getLast?_concat _
  | obj kvs =>
    refine ⟨rbrace, ?_, by decide⟩
    show ((lbrace :: JObject.stringifyEntries kvs) ++ [rbrace]).getLast? =
      some rbrace
    exact List.getLast?_concat _

theorem string_mk_data (s : String) : String.mk s.data = s := rfl

theorem intChars_head (n : Int) :
    ∃ c t, intChars n = c :: t ∧ (c = '-' ∨ isDigitCh c = true) := by
  by_cases h : n < 0
  · exact ⟨'-', natChars n.natAbs, by simp [intChars, h], Or.inl rfl⟩
  · obtain ⟨c, t, hct, hd⟩ := natChars_head_digit n.natAbs
    exact ⟨c, t, by simp [intChars, h, hct], Or.inr hd⟩

theorem numHead_ne {c : Char} (h : c = '-' ∨ isDigitCh c = true) :
    ¬ c = '"' ∧ ¬ c = 't' ∧ ¬ c = 'f' ∧ ¬ c = 'n' ∧ ¬ c = '[' ∧
      ¬ c = lbrace ∧ (c = '-' || isDigitCh c) = true := by
  rcases h with h | h
  · subst h
    exact ⟨by decide, by decide, by decide, by decide, by decide, by decide,
      by decide⟩
  · refine ⟨?_, ?_, ?_, ?_, ?_, ?_, by simp [h]⟩ <;>
      (intro hc; subst hc; revert h; decide)

theorem parseValue_succ (fuel : Nat) (c : Char) (cs : List Char) :
    parseValue (fuel + 1) (c :: cs) =
    (if c = '"' then
      match parseStringBody cs with
      | some (s, r) => some (.str (String.mk s), r)
      | none => none
    else if c = 't' then
      match cs with
      | 'r' :: 'u' :: 'e' :: r => some (.bool true, r)
      | _ => none
    else if c = 'f' then
      match cs with
      | 'a' :: 'l' :: 's' :: 'e' :: r => some (.bool false, r)
      | _ => none
    else if c = 'n' then
      match cs with
      | 'u' :: 'l' :: 'l' :: r => some (.null, r)
      | _ => none
    else if c = '[' then
      match skipWs cs with
      | [] => none
      | c1 :: r1 =>
        if c1 = ']' then some (.arr .nil, r1)
        else
          match parseItems fuel (c1 :: r1) with
          | some (xs, r) => some (.arr xs, r)
          | none => none
    else if c = lbrace then
      match skipWs cs with
      | [] => none
      | c1 :: r1 =>
        if c1 = rbrace then some (.obj .nil, r1)
        else
          match parseEntries fuel (c1 :: r1) with
          | some (kvs, r) => some (.obj kvs, r)
          | none => none
    else if c = '-' || isDigitCh c then
      match parseIntChars (c :: cs) with
      | some (n, r) => some (.num n, r)
      | none => none
    else none) := rfl

theorem parseItems_succ (fuel : Nat) (cs : List Char) :
    parseItems (fuel + 1) cs =
    (match parseValue fuel cs with
    | none => none
    | some (v, r) =>
      match skipWs r with
      | ',' :: r2 =>
        (match parseItems fuel (skipWs r2) with
         | some (xs, r3) => some (.cons v xs, r3)
         | none => none)
      | ']' :: r2 => some (.cons v .nil, r2)
      | _ => none) := rfl

theorem parseEntries_succ (fuel : Nat) (cs : List Char) :
    parseEntries (fuel + 1) cs =
    (match cs with
    | '"' :: cs1 =>
      (match parseStringBody cs1 with
       | some (k, r) =>
         (match skipWs r with
          | ':' :: r2 =>
            (match parseValue fuel (skipWs r2) with
             | some (v, r3) =>
               (match skipWs r3 with
                | [] => none
                | c4 :: r4 =>
                  if c4 = ',' then
                    match parseEntries fuel (skipWs r4) with
                    | some (t, r5) => some (.cons (String.mk k) v t, r5)
                    | none => none
                  else if c4 = rbrace then
                    some (.cons (String.mk k) v .nil, r4)
                  else none)
             | none => none)
          | _ => none)
       | none => none)
    | _ => none) := rfl

theorem parseValue_true (fuel : Nat) (rest : List Char) :
    parseValue (fuel + 1) ('t' :: 'r' :: 'u' :: 'e' :: rest) =
      some (.bool true, rest) := rfl

theorem parseValue_false (fuel : Nat) (rest : List Char) :
    parseValue (fuel + 1) ('f' :: 'a' :: 'l' :: 's' :: 'e' :: rest) =
      some (.bool false, rest) := rfl

theorem parseValue_null (fuel : Nat) (rest : List Char) :
    parseValue (fuel + 1) ('n' :: 'u' :: 'l' :: 'l' :: rest) =
      some (.null, rest) := rfl

theorem parseEntries_quote (fuel : Nat) (cs1 : List Char) :
    parseEntries (fuel + 1) ('"' :: cs1) =
    (match parseStringBody cs1 with
     | some (k, r) =>
       (match skipWs r with
        | ':' :: r2 =>
          (match parseValue fuel (skipWs r2) with
           | some (v, r3) =>
             (match skipWs r3 with
              | [] => none
              | c4 :: r4 =>
                if c4 = ',' then
                  match parseEntries fuel (skipWs r4) with
                  | some (t, r5) => some (.cons (String.mk k) v t, r5)
                  | none => none
                else if c4 = rbrace then
                  some (.cons (String.mk k) v .nil, r4)
                else none)
           | none => none)
        | _ => none)
     | none => none) := rfl

mutual

theorem parse_stringify : (v : JValue) → ∀ (fuel : Nat) (rest : List Char),
    JValue.jsize v ≤ fuel →
    (∀ c, rest.head? = some c → isDigitCh c = false) →
    parseValue fuel (JValue.stringify v ++ rest) = some (v, rest)
  | .str s => by
    intro fuel rest hfuel _
    obtain ⟨f, rfl⟩ : ∃ f, fuel = f + 1 :=
      ⟨fuel - 1, by simp [JValue.jsize] at hfuel; omega⟩
    rw [show JValue.stringify (.str s) ++ rest =
      '"' :: (escapeChars s.data ++ '"' :: rest) from by
        simp [JValue.stringify, quoteChars]]
    rw [parseValue_succ, if_pos rfl, parseStringBody_escape s.data rest]
  | .num n => by
    intro fuel rest hfuel hrest
    obtain ⟨f, rfl⟩ : ∃ f, fuel = f + 1 :=
      ⟨fuel - 1, by simp [JValue.jsize] at hfuel; omega⟩
    obtain ⟨c, t, hct, hd⟩ := intChars_head n
    obtain ⟨hq, ht, hf, hn, hb, hl, hnum⟩ := numHead_ne hd
    rw [show JValue.stringify (.num n) ++ rest = c :: (t ++ rest) from by
      simp [JValue.stringify, hct]]
    rw [parseValue_succ]
    rw [if_neg hq, if_neg ht, if_neg hf, if_neg hn, if_neg hb, if_neg hl,
      if_pos hnum]
    rw [show c :: (t ++ rest) = intChars n ++ rest from by simp [hct]]
    rw [parseIntChars_intChars n rest hrest]
  | .bool true => by
    intro fuel rest hfuel _
    obtain ⟨f, rfl⟩ : ∃ f, fuel = f + 1 :=
      ⟨fuel - 1, by simp [JValue.jsize] at hfuel; omega⟩
    rw [show JValue.stringify (.bool true) ++ rest =
      't' :: 'r' :: 'u' :: 'e' :: rest from by simp [JValue.stringify]]
    exact parseValue_true f rest
  | .bool false => by
    intro fuel rest hfuel _
    obtain ⟨f, rfl⟩ : ∃ f, fuel = f + 1 :=
      ⟨fuel - 1, by simp [JValue.jsize] at hfuel; omega⟩
    rw [show JValue.stringify (.bool false) ++ rest =
      'f' :: 'a' :: 'l' :: 's' :: 'e' :: rest from by simp [JValue.stringify]]
    exact parseValue_false f rest
  | .null => by
    intro fuel rest hfuel _
    obtain ⟨f, rfl⟩ : ∃ f, fuel = f + 1 :=
      ⟨fuel - 1, by simp [JValue.jsize] at hfuel; omega⟩
    rw [show JValue.stringify .null ++ rest =
      'n' :: 'u' :: 'l' :: 'l' :: rest from by simp [JValue.stringify]]
    exact parseValue_null f rest
  | .arr .nil => by
    intro fuel rest hfuel _
    obtain ⟨f, rfl⟩ : ∃ f, fuel = f + 1 :=
      ⟨fuel - 1, by simp [JValue.jsize] at hfuel; omega⟩
    rw [show JValue.stringify (.arr .nil) ++ rest = '[' :: ']' :: rest from by
      simp [JValue.stringify, JArray.stringifyItems]]
    rw [parseValue_succ]
    rw [if_neg (by decide : ¬ ('[' : Char) = '"'),
      if_neg (by decide : ¬ ('[' : Char) = 't'),
      if_neg (by decide : ¬ ('[' : Char) = 'f'),
      if_neg (by decide : ¬ ('[' : Char) = 'n'), if_pos rfl]
    rw [skipWs_not_ws (by decide : isWsChar ']' = false)]
    dsimp only
    rw [if_pos rfl]
  | .arr (.cons v t) => by
    intro fuel rest hfuel _
    obtain ⟨f, rfl⟩ : ∃ f, fuel = f + 1 :=
      ⟨fuel - 1, by simp [JValue.jsize] at hfuel; omega⟩
    rw [show JValue.stringify (.arr (.cons v t)) ++ rest =
      '[' :: (JArray.stringifyItems (.cons v t) ++ ']' :: rest) from by
        simp [JValue.stringify]]
    rw [parseValue_succ]
    rw [if_neg (by decide : ¬ ('[' : Char) = '"'),
      if_neg (by decide : ¬ ('[' : Char) = 't'),
      if_neg (by decide : ¬ ('[' : Char) = 'f'),
      if_neg (by decide : ¬ ('[' : Char) = 'n'), if_pos rfl]
    obtain ⟨c, t', hct, hd⟩ := stringify_head v
    have hin : JArray.stringifyItems (.cons v t) ++ ']' :: rest =
        c :: (t' ++ (JArray.stringifyRest t ++ ']' :: rest)) := by
      simp [JArray.stringifyItems, hct]
    rw [hin, skipWs_not_ws (isWsChar_of_isTrimWs (head_disj_not_trimws hd))]
    dsimp only
    rw [if_neg (head_disj_not_bracket hd).1]
    rw [← hin, parse_items (.cons v t) f rest (by simp)
      (by simp [JValue.jsize] at hfuel; omega)]
  | .obj .nil => by
    intro fuel rest hfuel _
    obtain ⟨f, rfl⟩ : ∃ f, fuel = f + 1 :=
      ⟨fuel - 1, by simp [JValue.jsize] at hfuel; omega⟩
    rw [show JValue.stringify (.obj .nil) ++ rest =
      lbrace :: rbrace :: rest from by
        simp [JValue.stringify, JObject.stringifyEntries]]
    rw [parseValue_succ]
    rw [if_neg (by decide : ¬ (lbrace : Char) = '"'),
      if_neg (by decide : ¬ (lbrace : Char) = 't'),
      if_neg (by decide : ¬ (lbrace : Char) = 'f'),
      if_neg (by decide : ¬ (lbrace : Char) = 'n'),
      if_neg (by decide : ¬ (lbrace : Char) = '['), if_pos rfl]
    rw [skipWs_not_ws (by decide : isWsChar rbrace = false)]
    dsimp only
    rw [if_pos rfl]
  | .obj (.cons k v t) => by
    intro fuel rest hfuel _
    obtain ⟨f, rfl⟩ : ∃ f, fuel = f + 1 :=
      ⟨fuel - 1, by simp [JValue.jsize] at hfuel; omega⟩
    rw [show JValue.stringify (.obj (.cons k v t)) ++ rest =
      lbrace :: (JObject.stringifyEntries (.cons k v t) ++ rbrace :: rest)
      from by simp [JValue.stringify]]
    rw [parseValue_succ]
    rw [if_neg (by decide : ¬ (lbrace : Char) = '"'),
      if_neg (by decide : ¬ (lbrace : Char) = 't'),
      if_neg (by decide : ¬ (lbrace : Char) = 'f'),
      if_neg (by decide : ¬ (lbrace : Char) = 'n'),
      if_neg (by decide : ¬ (lbrace : Char) = '['), if_pos rfl]
    have hin : JObject.stringifyEntries (.cons k v t) ++ rbrace :: rest =
        '"' :: (escapeChars k.data ++ '"' ::
          (':' :: (JValue.stringify v ++
            (JObject.stringifyRest t ++ rbrace :: rest)))) := by
      simp [JObject.stringifyEntries, quoteChars]
    rw [hin, skipWs_not_ws (by decide : isWsChar '"' = false)]
    dsimp only
    rw [if_neg (by decide : ¬ ('"' : Char) = rbrace)]
    rw [← hin, parse_entries (.cons k v t) f rest (by simp)
      (by simp [JValue.jsize] at hfuel; omega)]

theorem parse_items : (xs : JArray) → ∀ (fuel : Nat) (rest : List Char),
    xs ≠ .nil → JArray.jsize xs ≤ fuel →
    parseItems fuel (JArray.stringifyItems xs ++ ']' :: rest) =
      some (xs, rest)
  | .nil => fun _ _ h _ => absurd rfl h
  | .cons v t => by
    intro fuel rest _ hfuel
    obtain ⟨f, rfl⟩ : ∃ f, fuel = f + 1 :=
      ⟨fuel - 1, by simp [JArray.jsize] at hfuel; omega⟩
    rw [parseItems_succ]
    have hrest' : ∀ c, (JArray.stringifyRest t ++ ']' :: rest).head? =
        some c → isDigitCh c = false := by
      cases t with
      | nil =>
        intro c hc
        simp [JArray.stringifyRest] at hc
        rw [← hc]
        decide
      | cons v2 t2 =>
        intro c hc
        simp [JArray.stringifyRest] at hc
        rw [← hc]
        decide
    rw [show JArray.stringifyItems (.cons v t) ++ ']' :: rest =
      JValue.stringify v ++ (JArray.stringifyRest t ++ ']' :: rest) from by
        simp [JArray.stringifyItems]]
    rw [parse_stringify v f (JArray.stringifyRest t ++ ']' :: rest)
      (by simp [JArray.jsize] at hfuel; omega) hrest']
    dsimp only
    cases t with
    | nil =>
      rw [show JArray.stringifyRest JArray.nil ++ ']' :: rest =
        ']' :: rest from by simp [JArray.stringifyRest]]
      rw [skipWs_not_ws (by decide : isWsChar ']' = false)]
      rfl
    | cons v2 t2 =>
      rw [show JArray.stringifyRest (.cons v2 t2) ++ ']' :: rest =
        ',' :: (JArray.stringifyItems (.cons v2 t2) ++ ']' :: rest) from by
          simp [JArray.stringifyRest, JArray.stringifyItems]]
      rw [skipWs_not_ws (by decide : isWsChar ',' = false)]
      show (match parseItems f
          (skipWs (JArray.stringifyItems (JArray.cons v2 t2) ++
            ']' :: rest)) with
        | some (xs, r3) => some (JArray.cons v xs, r3)
        | none => none) = some (JArray.cons v (JArray.cons v2 t2), rest)
      have hskip2 : skipWs (JArray.stringifyItems (.cons v2 t2) ++
          ']' :: rest) =
          JArray.stringifyItems (.cons v2 t2) ++ ']' :: rest := by
        obtain ⟨c, t', hct, hd⟩ := stringify_head v2
        rw [show JArray.stringifyItems (.cons v2 t2) ++ ']' :: rest =
          c :: (t' ++ (JArray.stringifyRest t2 ++ ']' :: rest)) from by
            simp [JArray.stringifyItems, hct]]
        exact skipWs_not_ws (isWsChar_of_isTrimWs (head_disj_not_trimws hd)) _
      rw [hskip2]
      rw [parse_items (.cons v2 t2) f rest (by simp)
        (by simp [JArray.jsize] at hfuel ⊢; omega)]

theorem parse_entries : (kvs : JObject) → ∀ (fuel : Nat) (rest : List Char),
    kvs ≠ .nil → JObject.jsize kvs ≤ fuel →
    parseEntries fuel (JObject.stringifyEntries kvs ++ rbrace :: rest) =
      some (kvs, rest)
  | .nil => fun _ _ h _ => absurd rfl h
  | .cons k v t => by
    intro fuel rest _ hfuel
    obtain ⟨f, rfl⟩ : ∃ f, fuel = f + 1 :=
      ⟨fuel - 1, by simp [JObject.jsize] at hfuel; omega⟩
    rw [show JObject.stringifyEntries (.cons k v t) ++ rbrace :: rest =
      '"' :: (escapeChars k.data ++ '"' ::
        (':' :: (JValue.stringify v ++
          (JObject.stringifyRest t ++ rbrace :: rest)))) from by
        simp [JObject.stringifyEntries, quoteChars]]
    rw [parseEntries_quote]
    rw [parseStringBody_escape k.data]
    dsimp only
    rw [skipWs_not_ws (by decide : isWsChar ':' = false)]
    show (match parseValue f
        (skipWs (JValue.stringify v ++
          (JObject.stringifyRest t ++ rbrace :: rest))) with
      | some (v1, r3) =>
        (match skipWs r3 with
         | [] => none
         | c4 :: r4 =>
           if c4 = ',' then
             match parseEntries f (skipWs r4) with
             | some (t1, r5) =>
               some (JObject.cons (String.mk k.data) v1 t1, r5)
             | none => none
           else if c4 = rbrace then
             some (JObject.cons (String.mk k.data) v1 JObject.nil, r4)
           else none)
      | none => none) = some (JObject.cons k v t, rest)
    have hrest' : ∀ c, (JObject.stringifyRest t ++ rbrace :: rest).head? =
        some c → isDigitCh c = false := by
      cases t with
      | nil =>
        intro c hc
        simp [JObject.stringifyRest] at hc
        rw [← hc]
        decide
      | cons k2 v2 t2 =>
        intro c hc
        simp [JObject.stringifyRest] at hc
        rw [← hc]
        decide
    rw [skipWs_stringify v (JObject.stringifyRest t ++ rbrace :: rest)]
    rw [parse_stringify v f (JObject.stringifyRest t ++ rbrace :: rest)
      (by simp [JObject.jsize] at hfuel; omega) hrest']
    dsimp only
    cases t with
    | nil =>
      rw [show JObject.stringifyRest JObject.nil ++ rbrace :: rest =
        rbrace :: rest from by simp [JObject.stringifyRest]]
      rw [skipWs_not_ws (by decide : isWsChar rbrace = false)]
      dsimp only
      rw [if_neg (by decide : ¬ (rbrace : Char) = ','), if_pos rfl,
        string_mk_data]
    | cons k2 v2 t2 =>
      rw [show JObject.stringifyRest (.cons k2 v2 t2) ++ rbrace :: rest =
        ',' :: (JObject.stringifyEntries (.cons k2 v2 t2) ++
          rbrace :: rest) from by
          simp [JObject.stringifyRest, JObject.stringifyEntries]]
      rw [skipWs_not_ws (by decide : isWsChar ',' = false)]
      dsimp only
      rw [if_pos rfl]
      have hskip2 : skipWs (JObject.stringifyEntries (.cons k2 v2 t2) ++
          rbrace :: rest) =
          JObject.stringifyEntries (.cons k2 v2 t2) ++ rbrace :: rest := by
        rw [show JObject.stringifyEntries (.cons k2 v2 t2) ++
          rbrace :: rest = '"' :: ((escapeChars k2.data ++ ['"']) ++
            ((':' :: (JValue.stringify v2 ++ JObject.stringifyRest t2)) ++
              rbrace :: rest)) from by
            simp [JObject.stringifyEntries, quoteChars]]
        exact skipWs_not_ws (by decide) _
      rw [hskip2]
      rw [parse_entries (.cons k2 v2 t2) f rest (by simp)
        (by simp [JObject.jsize] at hfuel ⊢; omega)]

end
mutual

theorem jsize_le_len : (v : JValue) →
    JValue.jsize v ≤ (JValue.stringify v).length
  | .str s => by
    simp [JValue.jsize, JValue.stringify, quoteChars]
  | .num n => by
    obtain ⟨c, t, hct, _⟩ := intChars_head n
    simp [JValue.jsize, JValue.stringify, hct]
  | .bool b => by
    cases b <;> simp [JValue.jsize, JValue.stringify]
  | .null => by
    simp [JValue.jsize, JValue.stringify]
  | .arr xs => by
    have h := jsizeA_le xs
    simp only [JValue.jsize, JValue.stringify, List.length_cons,
      List.length_append, List.length_singleton]
    omega
  | .obj kvs => by
    have h := jsizeO_le kvs
    simp only [JValue.jsize, JValue.stringify, List.length_cons,
      List.length_append, List.length_singleton]
    omega

theorem jsizeA_le : (xs : JArray) →
    JArray.jsize xs ≤ (JArray.stringifyItems xs).length + 1
  | .nil => by simp [JArray.jsize, JArray.stringifyItems]
  | .cons v t => by
    have h1 := jsize_le_len v
    have h2 := jsizeAR_le t
    simp only [JArray.jsize, JArray.stringifyItems, List.length_append]
    omega

theorem jsizeAR_le : (t : JArray) →
    JArray.jsize t ≤ (JArray.stringifyRest t).length
  | .nil => by simp [JArray.jsize, JArray.stringifyRest]
  | .cons v t => by
    have h1 := jsize_le_len v
    have h2 := jsizeAR_le t
    simp only [JArray.jsize, JArray.stringifyRest, List.length_cons,
      List.length_append]
    omega

theorem jsizeO_le : (kvs : JObject) →
    JObject.jsize kvs ≤ (JObject.stringifyEntries kvs).length + 1
  | .nil => by simp [JObject.jsize, JObject.stringifyEntries]
  | .cons k v t => by
    have h1 := jsize_le_len v
    have h2 := jsizeOR_le t
    simp only [JObject.jsize, JObject.stringifyEntries, List.length_append,
      List.length_cons]
    omega

theorem jsizeOR_le : (t : JObject) →
    JObject.jsize t ≤ (JObject.stringifyRest t).length
  | .nil => by simp [JObject.jsize, JObject.stringifyRest]
  | .cons k v t => by
    have h1 := jsize_le_len v
    have h2 := jsizeOR_le t
    simp only [JObject.jsize, JObject.stringifyRest, List.length_cons,
      List.length_append]
    omega

end

theorem parseJsonLine_stringify (v : JValue) :
    parseJsonLine (JValue.stringify v) = some v := by
  unfold parseJsonLine
  dsimp only
  have h1 : skipWs (JValue.stringify v) = JValue.stringify v := by
    have h := skipWs_stringify v []
    simpa using h
  rw [h1]
  have h2 : parseValue ((JValue.stringify v).length + 1)
      (JValue.stringify v) = some (v, []) := by
    have h := parse_stringify v ((JValue.stringify v).length + 1) []
      (le_trans (jsize_le_len v) (by omega))
      (by intro c hc; simp at hc)
    simpa using h
  rw [h2]
  rfl
theorem hexChar_ne_nl (k : Nat) (h : k < 16) : hexChar k ≠ '\n' := by
  interval_cases k <;> decide

theorem digit_ne_nl {c : Char} (h : isDigitCh c = true) : c ≠ '\n' := by
  intro heq
  subst heq
  simp [isDigitCh] at h

theorem escapeChar_no_nl (c d : Char) (hd : d ∈ escapeChar c) : d ≠ '\n' := by
  unfold escapeChar at hd
  split_ifs at hd with h1 h2 h3 h4 h5 h6 h7 h8
  · simp at hd; rcases hd with rfl | rfl <;> decide
  · simp at hd; subst hd; decide
  · simp at hd; rcases hd with rfl | rfl <;> decide
  · simp at hd; rcases hd with rfl | rfl <;> decide
  · simp at hd; rcases hd with rfl | rfl <;> decide
  · simp at hd; rcases hd with rfl | rfl <;> decide
  · simp at hd; rcases hd with rfl | rfl <;> decide
  · simp at hd
    rcases hd with rfl | rfl | rfl | rfl | rfl
    · decide
    · decide
    · decide
    · exact hexChar_ne_nl _ (by omega)
    · exact hexChar_ne_nl _ (by omega)
  · simp at hd
    subst hd
    exact h3

theorem quoteChars_no_nl (s : String) :
    ∀ c ∈ quoteChars s, c ≠ '\n' := by
  intro c hc
  simp [quoteChars, escapeChars] at hc
  rcases hc with rfl | ⟨a, _, hmem⟩ | rfl
  · decide
  · exact escapeChar_no_nl a c hmem
  · decide

theorem intChars_no_nl (n : Int) : ∀ c ∈ intChars n, c ≠ '\n' := by
  intro c hc
  unfold intChars at hc
  split_ifs at hc with h
  · simp at hc
    rcases hc with rfl | hc
    · decide
    · exact digit_ne_nl (natChars_digits _ _ hc)
  · exact digit_ne_nl (natChars_digits _ _ hc)

mutual

theorem stringify_no_nl : (v : JValue) →
    ∀ c ∈ JValue.stringify v, c ≠ '\n'
  | .str s => quoteChars_no_nl s
  | .num n => intChars_no_nl n
  | .bool b => by
    intro c hc
    cases b
    · simp [JValue.stringify] at hc
      rcases hc with rfl | rfl | rfl | rfl | rfl <;> decide
    · simp [JValue.stringify] at hc
      rcases hc with rfl | rfl | rfl | rfl <;> decide
  | .null => by
    intro c hc
    simp [JValue.stringify] at hc
    rcases hc with rfl | rfl | rfl | rfl <;> decide
  | .arr xs => by
    intro c hc
    simp [JValue.stringify] at hc
    rcases hc with rfl | hc | rfl
    · decide
    · exact items_no_nl xs c hc
    · decide
  | .obj kvs => by
    intro c hc
    simp [JValue.stringify] at hc
    rcases hc with rfl | hc | rfl
    · decide
    · exact entries_no_nl kvs c hc
    · decide

theorem items_no_nl : (xs : JArray) →
    ∀ c ∈ JArray.stringifyItems xs, c ≠ '\n'
  | .nil => by intro c hc; simp [JArray.stringifyItems] at hc
  | .cons v t => by
    intro c hc
    simp [JArray.stringifyItems] at hc
    rcases hc with hc | hc
    · exact stringify_no_nl v c hc
    · exact itemsRest_no_nl t c hc

theorem itemsRest_no_nl : (t : JArray) →
    ∀ c ∈ JArray.stringifyRest t, c ≠ '\n'
  | .nil => by intro c hc; simp [JArray.stringifyRest] at hc
  | .cons v t => by
    intro c hc
    simp [JArray.stringifyRest] at hc
    rcases hc with rfl | hc | hc
    · decide
    · exact stringify_no_nl v c hc
    · exact itemsRest_no_nl t c hc

theorem entries_no_nl : (kvs : JObject) →
    ∀ c ∈ JObject.stringifyEntries kvs, c ≠ '\n'
  | .nil => by intro c hc; simp [JObject.stringifyEntries] at hc
  | .cons k v t => by
    intro c hc
    simp [JObject.stringifyEntries] at hc
    rcases hc with hc | rfl | hc | hc
    · exact quoteChars_no_nl k c hc
    · decide
    · exact stringify_no_nl v c hc
    · exact entriesRest_no_nl t c hc

theorem entriesRest_no_nl : (t : JObject) →
    ∀ c ∈ JObject.stringifyRest t, c ≠ '\n'
  | .nil => by intro c hc; simp [JObject.stringifyRest] at hc
  | .cons k v t => by
    intro c hc
    simp [JObject.stringifyRest] at hc
    rcases hc with rfl | hc | rfl | hc | hc
    · decide
    · exact quoteChars_no_nl k c hc
    · decide
    · exact stringify_no_nl v c hc
    · exact entriesRest_no_nl t c hc

end
theorem splitNl_no_nl (l : List Char) (h : ∀ c ∈ l, c ≠ '\n') :
    splitNl l = [l] := by
  induction l with
  | nil => rfl
  | cons c rest ih =>
    have hc : ¬ c = '\n' := h c (by simp)
    rw [splitNl, if_neg hc, ih (fun d hd => h d (by simp [hd]))]

theorem splitNl_append_nl (l t : List Char) (h : ∀ c ∈ l, c ≠ '\n') :
    splitNl (l ++ '\n' :: t) = l :: splitNl t := by
  induction l with
  | nil =>
    simp only [List.nil_append]
    rw [splitNl, if_pos rfl]
  | cons c rest ih =>
    have hc : ¬ c = '\n' := h c (by simp)
    rw [List.cons_append, splitNl, if_neg hc,
      ih (fun d hd => h d (by simp [hd]))]

theorem jsTrim_id (cs : List Char) (c0 cl : Char)
    (h0 : cs.head? = some c0) (hw0 : isTrimWs c0 = false)
    (hl : cs.getLast? = some cl) (hwl : isTrimWs cl = false) :
    jsTrim cs = cs := by
  obtain ⟨t, rfl⟩ : ∃ t, cs = c0 :: t := by
    cases cs with
    | nil => simp at h0
    | cons a t => simp at h0; exact ⟨t, by rw [h0]⟩
  unfold jsTrim
  rw [List.dropWhile_cons, hw0, if_neg Bool.false_ne_true]
  have hrev : (c0 :: t).reverse.head? = some cl := by
    rw [List.head?_reverse]
    exact hl
  obtain ⟨r, hr⟩ : ∃ r, (c0 :: t).reverse = cl :: r := by
    cases hrev2 : (c0 :: t).reverse with
    | nil => rw [hrev2] at hrev; simp at hrev
    | cons a r => rw [hrev2] at hrev; simp at hrev; exact ⟨r, by rw [hrev]⟩
  rw [hr, List.dropWhile_cons, hwl, if_neg Bool.false_ne_true]
  rw [← hr, List.reverse_reverse]

theorem jsTrim_wrap (cs : List Char) (c0 cl : Char)
    (h0 : cs.head? = some c0) (hw0 : isTrimWs c0 = false)
    (hl : cs.getLast? = some cl) (hwl : isTrimWs cl = false) :
    jsTrim (cs ++ ['\n']) = cs := by
  obtain ⟨t, rfl⟩ : ∃ t, cs = c0 :: t := by
    cases cs with
    | nil => simp at h0
    | cons a t => simp at h0; exact ⟨t, by rw [h0]⟩
  unfold jsTrim
  rw [List.cons_append, List.dropWhile_cons, hw0,
    if_neg Bool.false_ne_true]
  rw [show (c0 :: (t ++ ['\n'])).reverse = '\n' :: (c0 :: t).reverse from by
    simp]
  rw [List.dropWhile_cons, if_pos (by decide : isTrimWs '\n' = true)]
  have hrev : (c0 :: t).reverse.head? = some cl := by
    rw [List.head?_reverse]
    exact hl
  obtain ⟨r, hr⟩ : ∃ r, (c0 :: t).reverse = cl :: r := by
    cases hrev2 : (c0 :: t).reverse with
    | nil => rw [hrev2] at hrev; simp at hrev
    | cons a r => rw [hrev2] at hrev; simp at hrev; exact ⟨r, by rw [hrev]⟩
  rw [hr, List.dropWhile_cons, hwl, if_neg Bool.false_ne_true]
  rw [← hr, List.reverse_reverse]
theorem intercalateNl_cons_cons (l m : List Char) (ls : List (List Char)) :
    intercalateNl (l :: m :: ls) = l ++ '\n' :: intercalateNl (m :: ls) :=
  rfl

theorem intercalateNl_append (xs ys : List (List Char)) (hys : ys ≠ []) :
    xs ≠ [] →
    intercalateNl (xs ++ ys) = intercalateNl xs ++ '\n' :: intercalateNl ys
  := by
  induction xs with
  | nil => intro h; exact absurd rfl h
  | cons l xs ih =>
    intro _
    cases xs with
    | nil =>
      cases ys with
      | nil => exact absurd rfl hys
      | cons y ys' => rfl
    | cons m xs' =>
      rw [List.cons_append, List.cons_append, intercalateNl_cons_cons,
        ← List.cons_append, ih (by simp), intercalateNl_cons_cons]
      simp

theorem stringify_snoc (v : JValue) :
    ∃ init c, JValue.stringify v = init ++ [c] ∧ isTrimWs c = false := by
  obtain ⟨c, hc, hw⟩ := stringify_last v
  have hne : JValue.stringify v ≠ [] := by
    intro h
    rw [h] at hc
    simp at hc
  refine ⟨(JValue.stringify v).dropLast, c, ?_, hw⟩
  rw [List.getLast?_eq_getLast _ hne] at hc
  have h2 := List.dropLast_append_getLast hne
  rw [Option.some_inj] at hc
  rw [hc] at h2
  exact h2.symm

theorem intercalateNl_strs_snoc (vs : List JValue) : vs ≠ [] →
    ∃ init c, intercalateNl (vs.map JValue.stringify) = init ++ [c] ∧
      isTrimWs c = false := by
  induction vs with
  | nil => intro h; exact absurd rfl h
  | cons v vs ih =>
    intro _
    cases vs with
    | nil =>
      obtain ⟨init, c, heq, hw⟩ := stringify_snoc v
      exact ⟨init, c, heq, hw⟩
    | cons v2 vs' =>
      obtain ⟨init, c, heq, hw⟩ := ih (by simp)
      refine ⟨JValue.stringify v ++ '\n' :: init, c, ?_, hw⟩
      rw [List.map_cons, List.map_cons, intercalateNl_cons_cons,
        ← List.map_cons, heq]
      simp

theorem intercalateNl_strs_head (v : JValue) (vs : List JValue) :
    ∃ c, (intercalateNl ((v :: vs).map JValue.stringify)).head? = some c ∧
      isTrimWs c = false := by
  obtain ⟨c, t, hct, hd⟩ := stringify_head v
  have hw := head_disj_not_trimws hd
  cases vs with
  | nil => exact ⟨c, by simp [intercalateNl, hct], hw⟩
  | cons v2 vs' =>
    refine ⟨c, ?_, hw⟩
    rw [List.map_cons, List.map_cons, intercalateNl_cons_cons, hct]
    simp

theorem splitNl_intercalate (vs : List JValue) : vs ≠ [] →
    splitNl (intercalateNl (vs.map JValue.stringify)) =
      vs.map JValue.stringify := by
  induction vs with
  | nil => intro h; exact absurd rfl h
  | cons v vs ih =>
    intro _
    cases vs with
    | nil =>
      show splitNl (JValue.stringify v) = [JValue.stringify v]
      exact splitNl_no_nl _ (stringify_no_nl v)
    | cons v2 vs' =>
      rw [List.map_cons, List.map_cons, intercalateNl_cons_cons,
        splitNl_append_nl _ _ (stringify_no_nl v), ← List.map_cons,
        ih (by simp)]

theorem jsTrim_stringify (v : JValue) :
    jsTrim (JValue.stringify v) = JValue.stringify v := by
  obtain ⟨c, t, hct, hd⟩ := stringify_head v
  obtain ⟨cl, hcl, hwl⟩ := stringify_last v
  exact jsTrim_id _ c cl (by rw [hct]; rfl) (head_disj_not_trimws hd)
    hcl hwl

theorem lines_filter (vs : List JValue) :
    (vs.map JValue.stringify).filter
      (fun line => !(jsTrim line).isEmpty) = vs.map JValue.stringify := by
  rw [List.filter_eq_self]
  intro l hl
  rw [List.mem_map] at hl
  obtain ⟨v, _, rfl⟩ := hl
  rw [jsTrim_stringify]
  obtain ⟨c, t, hct, _⟩ := stringify_head v
  rw [hct]
  rfl

theorem parse_lines (vs : List JValue) :
    List.filterMap parseJsonLine (vs.map JValue.stringify) = vs := by
  induction vs with
  | nil => rfl
  | cons v vs ih =>
    rw [List.map_cons, List.filterMap_cons, parseJsonLine_stringify, ih]

theorem readFromFile_lines (vs : List JValue) (hne : vs ≠ []) :
    readFromFile (intercalateNl (vs.map JValue.stringify) ++ ['\n']) =
      vs := by
  obtain ⟨v, vs', rfl⟩ : ∃ v vs', vs = v :: vs' := by
    cases vs with
    | nil => exact absurd rfl hne
    | cons v vs' => exact ⟨v, vs', rfl⟩
  obtain ⟨c0, h0, hw0⟩ := intercalateNl_strs_head v vs'
  obtain ⟨init, cl, hsnoc, hwl⟩ := intercalateNl_strs_snoc (v :: vs')
    (by simp)
  unfold readFromFile
  rw [jsTrim_wrap _ c0 cl h0 hw0 (by rw [hsnoc]; exact List.getLast?_concat _)
    hwl]
  rw [splitNl_intercalate _ (by simp), lines_filter, parse_lines]

theorem foldl_appendToFile (bs : List (List JValue)) :
    ∀ acc, List.foldl appendToFile acc bs =
      acc ++ List.foldl appendToFile [] bs := by
  induction bs with
  | nil => intro acc; simp
  | cons b bs ih =>
    intro acc
    rw [List.foldl_cons, List.foldl_cons, ih (appendToFile acc b),
      ih (appendToFile [] b)]
    simp [appendToFile]

theorem flatten_ne_nil (bs : List (List JValue)) (h : ∀ b ∈ bs, b ≠ [])
    (hne : bs ≠ []) : bs.flatten ≠ [] := by
  cases bs with
  | nil => exact absurd rfl hne
  | cons b bs' =>
    have hb : b ≠ [] := h b (by simp)
    cases b with
    | nil => exact absurd rfl hb
    | cons e es => simp

theorem writeBatches_norm (batches : List (List JValue))
    (h : ∀ b ∈ batches, b ≠ []) : batches ≠ [] →
    writeBatches batches =
      intercalateNl ((batches.flatten).map JValue.stringify) ++ ['\n'] := by
  induction batches with
  | nil => intro hne; exact absurd rfl hne
  | cons b bs ih =>
    intro _
    unfold writeBatches
    rw [List.foldl_cons, foldl_appendToFile]
    cases bs with
    | nil =>
      show appendToFile [] b ++ [] = _
      simp [appendToFile, serializeBatch]
    | cons b2 bs' =>
      have hbs : ∀ x ∈ b2 :: bs', x ≠ [] := fun x hx => h x (by simp [hx])
      rw [show List.foldl appendToFile [] (b2 :: bs') =
        writeBatches (b2 :: bs') from rfl]
      rw [ih hbs (by simp)]
      show serializeBatch b ++ _ = _
      rw [show (b :: b2 :: bs').flatten = b ++ (b2 :: bs').flatten from by
        simp]
      rw [List.map_append]
      rw [intercalateNl_append _ _ ?hys ?hxs]
      · unfold serializeBatch
        simp
      case hys =>
        have := flatten_ne_nil (b2 :: bs') hbs (by simp)
        intro hmap
        rw [List.map_eq_nil_iff] at hmap
        exact this hmap
      case hxs =>
        have hb : b ≠ [] := h b (by simp)
        intro hmap
        rw [List.map_eq_nil_iff] at hmap
        exact hb hmap

/-- C3: writing any sequence of non-empty event batches through the File
Transport (appendToFile per doSend/doSendBatch) to an initially empty file
and reading the file back with readFromFile yields exactly the written
events, in write order. -/
theorem file_roundtrip_all (batches : List (List JValue))
    (h : ∀ b ∈ batches, b ≠ []) :
    readFromFile (writeBatches batches) = batches.flatten := by
  cases batches with
  | nil => rfl
  | cons b bs =>
    rw [writeBatches_norm _ h (by simp)]
    exact readFromFile_lines _ (flatten_ne_nil _ h (by simp))

/-- Witness for the C3 round-trip theorem at the concrete one-batch file
[[null]]: the non-emptiness hypothesis holds and the file reads back as
the single written event. -/
theorem file_roundtrip_all_witness :
    (∀ b ∈ [[JValue.null]], b ≠ ([] : List JValue)) ∧
    readFromFile (writeBatches [[JValue.null]]) = [JValue.null] :=
  ⟨fun b hb => by rw [List.mem_singleton] at hb; subst hb; simp,
   file_roundtrip_all [[JValue.null]]
     (fun b hb => by rw [List.mem_singleton] at hb; subst hb; simp)⟩
